import Mathlib

/-!
Verification of the security-audit orchestrator pipeline.

Shallow Lean embedding of the Python sources: `util/io.py` (atomic
persistence), `orchestrator.py` (verdict aggregation, breadth/depth
scheduler, plan post-processing, task execution ordering),
`util/manifest.py` and `run_pipeline.py` (manifest validation, run driver,
seed ordering), `codex_dispatch.py` / `codex_exec.py` /
`codex_manifest_runner.py` (command-line construction), and
`codex_agent.py` (task parsing, response validation, failure
normalization).  Each definition is transcribed from the corresponding
source function; theorems settle the specification claims against them.
-/

namespace Spec2Proof

/-! ## Atomic persistence (`util/io.py`, `atomic_write`)

The filesystem slice that `atomic_write` touches: the contents of the
target path (`none` when absent) and the temp files present in the target's
directory.  I/O failures are injected through `IoFaults`; `unlink` of a
temp file just created by this call is modelled as succeeding. -/

/-- A byte blob (the `data` argument of `atomic_write`). -/
abbrev Bytes := List Nat

/-- Contents of the target path plus temp files in its directory. -/
structure FsState where
  target : Option Bytes
  temps : List Bytes
deriving DecidableEq, Repr

/-- Which I/O step of `atomic_write` fails, if any. -/
structure IoFaults where
  mkdirFails : Bool
  mkstempFails : Bool
  writeFails : Bool
  replaceFails : Bool
deriving DecidableEq, Repr

/-- The surfaced error of a failed `atomic_write` step. -/
inductive IoError
  | mkdirErr
  | mkstempErr
  | writeErr
  | replaceErr
deriving DecidableEq, Repr

/-- `atomic_write(path, data)` from `util/io.py`, final state and outcome:
`mkdir` parents, `mkstemp` in the same directory, write the blob to the
temp file, `os.replace` over the target; on any failure `os.unlink` the
temp file and re-raise the original error. -/
def atomicWrite (st : FsState) (data : Bytes) (f : IoFaults) :
    FsState × Option IoError :=
  if f.mkdirFails then (st, some IoError.mkdirErr)
  else if f.mkstempFails then (st, some IoError.mkstempErr)
  else if f.writeFails then
    -- `with os.fdopen ... fh.write(data)` raised: the except-branch unlinks
    -- the temp file, restoring the pre-call directory, and re-raises.
    (st, some IoError.writeErr)
  else if f.replaceFails then
    -- `os.replace` raised: temp unlinked, target untouched.
    (st, some IoError.replaceErr)
  else
    ({ target := some data, temps := st.temps }, none)

/-- Every intermediate filesystem state passed through by `atomic_write`,
in order (the temp file appears, is filled, then is renamed or unlinked). -/
def atomicWriteTrace (st : FsState) (data : Bytes) (f : IoFaults) :
    List FsState :=
  if f.mkdirFails then [st]
  else if f.mkstempFails then [st]
  else
    let tmpEmpty : FsState := { target := st.target, temps := st.temps ++ [[]] }
    if f.writeFails then [tmpEmpty, st]
    else
      let tmpFull : FsState := { target := st.target, temps := st.temps ++ [data] }
      if f.replaceFails then [tmpEmpty, tmpFull, st]
      else [tmpEmpty, tmpFull, { target := some data, temps := st.temps }]

/-- C2: `atomic_write` either leaves the target holding exactly the given
bytes (success, with no temp residue), or surfaces the original error with
the target byte-identical to its pre-call state and no temp file of the
call remaining; at no intermediate point does the target hold anything
other than its old contents or the full new contents. -/
theorem C2_atomic_write_all_or_nothing (st : FsState) (data : Bytes)
    (f : IoFaults) :
    (atomicWrite st data f = ({ target := some data, temps := st.temps }, none) ∨
      ∃ e, atomicWrite st data f = (st, some e)) ∧
    (∀ s ∈ atomicWriteTrace st data f,
      s.target = st.target ∨ s.target = some data) := by
  unfold atomicWrite atomicWriteTrace
  by_cases h1 : f.mkdirFails <;> by_cases h2 : f.mkstempFails <;>
    by_cases h3 : f.writeFails <;> by_cases h4 : f.replaceFails <;>
    simp [h1, h2, h3, h4]

/-- Witness for C2 at a concrete input: a failing `os.replace` leaves the
prior contents `[1]` intact, and each intermediate state holds either the
old or the new contents. -/
theorem C2_atomic_write_all_or_nothing_witness :
    (atomicWrite { target := some [1], temps := [] } [2]
        { mkdirFails := false, mkstempFails := false,
          writeFails := false, replaceFails := true } =
      ({ target := some [1], temps := [] }, some IoError.replaceErr)) ∧
    (FsState.target { target := some [1], temps := [[2]] } = some [1] ∨
      FsState.target { target := some [1], temps := [[2]] } = some [2]) := by
  refine ⟨by decide, ?_⟩
  exact (C2_atomic_write_all_or_nothing
    { target := some [1], temps := [] } [2]
    { mkdirFails := false, mkstempFails := false,
      writeFails := false, replaceFails := true }).2
    { target := some [1], temps := [[2]] } (by decide)

/-! ## Finding-level verdict (`orchestrator.py`, `process_findings`)

`states = {c.state for c in conditions}` followed by the three-way branch
assigning the verdict; the Python set operations are transcribed as list
membership tests. -/

/-- Condition states (`Condition.state` in `orchestrator.py`). -/
inductive CState
  | satisfied
  | failed
  | unknown
deriving DecidableEq, Repr

/-- The verdict branch of `Orchestrator.process_findings`:
`states and states == {"satisfied"}` gives TRUE_POSITIVE;
`states and "satisfied" not in states and "failed" in states` gives
FALSE_POSITIVE; otherwise UNKNOWN. -/
def findingVerdict (states : List CState) : String × String :=
  if (!states.isEmpty) && states.all (fun c => c == CState.satisfied) then
    ("TRUE_POSITIVE", "all conditions satisfied")
  else if (!states.isEmpty) && (!states.contains CState.satisfied)
      && states.contains CState.failed then
    ("FALSE_POSITIVE", "at least one condition failed")
  else
    ("UNKNOWN", "conditions unresolved")

/-- C3: the verdict is a function of the top-level condition states alone:
all-satisfied (nonempty) gives TRUE_POSITIVE with reason "all conditions
satisfied"; no satisfied but some failed gives FALSE_POSITIVE with reason
"at least one condition failed"; every other case, the empty condition
list included, gives UNKNOWN with reason "conditions unresolved". -/
theorem C3_finding_verdict (states : List CState) :
    (states ≠ [] → (∀ c ∈ states, c = CState.satisfied) →
      findingVerdict states = ("TRUE_POSITIVE", "all conditions satisfied")) ∧
    ((∀ c ∈ states, c ≠ CState.satisfied) → CState.failed ∈ states →
      findingVerdict states = ("FALSE_POSITIVE", "at least one condition failed")) ∧
    (¬ (states ≠ [] ∧ ∀ c ∈ states, c = CState.satisfied) →
      ¬ ((∀ c ∈ states, c ≠ CState.satisfied) ∧ CState.failed ∈ states) →
      findingVerdict states = ("UNKNOWN", "conditions unresolved")) := by
  unfold findingVerdict
  refine ⟨?_, ?_, ?_⟩
  · intro hne hall
    have h1 : (!states.isEmpty) = true := by
      cases states
      · exact absurd rfl hne
      · rfl
    have h2 : states.all (fun c => c == CState.satisfied) = true := by
      rw [List.all_eq_true]
      intro c hc
      simpa using hall c hc
    simp [h1, h2]
  · intro hnone hfail
    have h3 : states.contains CState.failed = true := by simpa using hfail
    have h2 : states.contains CState.satisfied = false := by
      cases hb : states.contains CState.satisfied
      · rfl
      · exact absurd rfl (hnone CState.satisfied (by simpa using hb))
    have h4 : states.all (fun c => c == CState.satisfied) = false := by
      cases hb : states.all (fun c => c == CState.satisfied)
      · rfl
      · have := (List.all_eq_true.mp hb) CState.failed hfail
        simp at this
    have h1 : (!states.isEmpty) = true := by
      cases states
      · simp at hfail
      · rfl
    simp [h1, h2, h3, h4]
    exact ⟨by simpa using h2, hfail⟩
  · intro hnotall hnotfail
    by_cases h1 : ((!states.isEmpty) && states.all (fun c => c == CState.satisfied)) = true
    · exfalso
      rw [Bool.and_eq_true] at h1
      apply hnotall
      refine ⟨?_, ?_⟩
      · intro h
        rw [h] at h1
        simpa using h1.1
      · intro c hc
        simpa using (List.all_eq_true.mp h1.2) c hc
    · by_cases h2 : ((!states.isEmpty) && (!states.contains CState.satisfied)
          && states.contains CState.failed) = true
      · exfalso
        rw [Bool.and_eq_true, Bool.and_eq_true] at h2
        apply hnotfail
        refine ⟨?_, ?_⟩
        · intro c hc hcs
          have hs := h2.1.2
          have hns : CState.satisfied ∉ states := by
            intro hm
            have : states.contains CState.satisfied = true := by simpa using hm
            rw [this] at hs
            simp at hs
          exact hns (hcs ▸ hc)
        · simpa using h2.2
      · simp only [if_neg h1, if_neg h2]

/-- Witness for C3 at a concrete input: a single satisfied condition gives
TRUE_POSITIVE. -/
theorem C3_finding_verdict_witness :
    findingVerdict [CState.satisfied] =
      ("TRUE_POSITIVE", "all conditions satisfied") :=
  (C3_finding_verdict [CState.satisfied]).1 (by decide) (by decide)

/-! ## Codex command lines (`codex_dispatch.py`, `codex_exec.py`,
`codex_manifest_runner.py`)

The three code paths that assemble a `codex` command line.  String
arguments are the values interpolated at run time; flags are the literal
strings of each source file. -/

/-- The flag that disables Codex's own approval/sandbox mechanism. -/
def bypassFlag : String := "--dangerously-bypass-approvals-and-sandbox"

/-- `base_cmd` of `CodexClient.exec` (`codex_dispatch.py` lines 156-165). -/
def codexClientCmd (binPath outFile workdir : String)
    (extraFlags : List String) : List String :=
  [binPath, "exec", "--output-last-message", outFile,
    "--skip-git-repo-check", "-C", workdir] ++ extraFlags

/-- `cmd` of `invoke_codex` (`codex_exec.py` lines 67-77). -/
def invokeCodexCmd (codexBin outputPath workDir : String)
    (extraFlags : List String) : List String :=
  [codexBin, "exec", "--output-last-message", outputPath,
    "--dangerously-bypass-approvals-and-sandbox",
    "--skip-git-repo-check", "-C", workDir] ++ extraFlags

/-- `cmd` of `_invoke_codex` (`codex_manifest_runner.py` lines 39-48). -/
def manifestRunnerCmd (codexBin outputPath workDir : String) : List String :=
  [codexBin, "exec", "--output-last-message", outputPath,
    "--dangerously-bypass-approvals-and-sandbox",
    "--skip-git-repo-check", "-C", workDir]

/-- C1 counterexample: the command lines built by `invoke_codex`
(`codex_exec.py`) and by `_invoke_codex` (`codex_manifest_runner.py`)
contain `--dangerously-bypass-approvals-and-sandbox`, so it is not the
case that every code path launching the codex binary passes only the
fixed read-only flag set; only the dispatcher path is clean. -/
theorem C1_counterexample :
    bypassFlag ∈ invokeCodexCmd "codex" "/tmp/out" "/repo" [] ∧
    bypassFlag ∈ manifestRunnerCmd "codex" "/tmp/out" "/repo" ∧
    bypassFlag ∉ codexClientCmd "codex" "/tmp/out" "/repo" [] := by
  decide

/-- C1 amended: the dispatcher (`CodexClient.exec`) builds exactly the
fixed read-only flag set plus caller extra flags, and its command contains
the approval/sandbox bypass flag only if a caller-supplied string is that
flag; the standalone launchers `invoke_codex` and the manifest runner, in
contrast, always include the bypass flag. -/
theorem C1_dispatcher_readonly_flags (binPath outFile workdir : String)
    (extraFlags : List String) :
    codexClientCmd binPath outFile workdir extraFlags =
      [binPath, "exec", "--output-last-message", outFile,
        "--skip-git-repo-check", "-C", workdir] ++ extraFlags ∧
    (bypassFlag ∈ codexClientCmd binPath outFile workdir extraFlags →
      bypassFlag ∈ extraFlags ∨ binPath = bypassFlag ∨
        outFile = bypassFlag ∨ workdir = bypassFlag) ∧
    bypassFlag ∈ invokeCodexCmd binPath outFile workdir extraFlags ∧
    bypassFlag ∈ manifestRunnerCmd binPath outFile workdir := by
  refine ⟨rfl, ?_, ?_, ?_⟩
  · intro h
    simp only [codexClientCmd, List.mem_append, List.mem_cons,
      List.not_mem_nil, or_false] at h
    rcases h with (h | h | h | h | h | h | h) | h
    · exact Or.inr (Or.inl h.symm)
    · exact absurd h (by decide)
    · exact absurd h (by decide)
    · exact Or.inr (Or.inr (Or.inl h.symm))
    · exact absurd h (by decide)
    · exact absurd h (by decide)
    · exact Or.inr (Or.inr (Or.inr h.symm))
    · exact Or.inl h
  · simp [invokeCodexCmd, bypassFlag]
  · simp [manifestRunnerCmd, bypassFlag]

/-- Witness for the amended C1 at a concrete input: with the bypass flag
passed as a caller extra flag, it is indeed traced back to the extra
flags. -/
theorem C1_dispatcher_readonly_flags_witness :
    bypassFlag ∈ [bypassFlag] ∨ "codex" = bypassFlag ∨
      "/tmp/out" = bypassFlag ∨ "/repo" = bypassFlag :=
  (C1_dispatcher_readonly_flags "codex" "/tmp/out" "/repo" [bypassFlag]).2.1
    (by decide)

/-! ## Stable descending sort

Python's `sorted(..., key=..., reverse=True)` is a stable sort; the
orchestrator relies on it in the depth pass and the hotspot ordering.
Modelled as an insertion sort that places each newly processed element
after all already-placed elements with a greater-or-equal key. -/

/-- Insert `x` into a descending-sorted list, after equal keys. -/
def insertDescBy {α : Type} (f : α → Int) (x : α) : List α → List α
  | [] => [x]
  | y :: ys => if f x ≤ f y then y :: insertDescBy f x ys else x :: y :: ys

/-- Stable sort by key `f`, descending (Python `sorted(l, key=f, reverse=True)`). -/
def sortDescBy {α : Type} (f : α → Int) (l : List α) : List α :=
  l.foldl (fun acc x => insertDescBy f x acc) []

theorem insertDescBy_perm {α : Type} (f : α → Int) (x : α) (l : List α) :
    (insertDescBy f x l).Perm (x :: l) := by
  induction l with
  | nil => simp [insertDescBy]
  | cons y ys ih =>
    unfold insertDescBy
    by_cases h : f x ≤ f y
    · simp only [if_pos h]
      exact (ih.cons y).trans (List.Perm.swap x y ys)
    · simp only [if_neg h]
      exact List.Perm.refl _

theorem insertDescBy_pairwise {α : Type} (f : α → Int) (x : α) (l : List α)
    (h : List.Pairwise (fun a b => f b ≤ f a) l) :
    List.Pairwise (fun a b => f b ≤ f a) (insertDescBy f x l) := by
  induction l with
  | nil => simp [insertDescBy]
  | cons y ys ih =>
    rw [List.pairwise_cons] at h
    unfold insertDescBy
    by_cases hc : f x ≤ f y
    · simp only [if_pos hc]
      rw [List.pairwise_cons]
      refine ⟨?_, ih h.2⟩
      intro z hz
      rcases List.mem_cons.mp ((insertDescBy_perm f x ys).mem_iff.mp hz) with hz | hz
      · rw [hz]; exact hc
      · exact h.1 z hz
    · simp only [if_neg hc]
      rw [List.pairwise_cons]
      refine ⟨?_, List.pairwise_cons.mpr h⟩
      intro z hz
      rcases List.mem_cons.mp hz with hz | hz
      · rw [hz]; exact le_of_not_le hc
      · exact le_trans (h.1 z hz) (le_of_not_le hc)

theorem insertDescBy_filter {α : Type} (f : α → Int) (s : Int) (x : α)
    (l : List α) (h : List.Pairwise (fun a b => f b ≤ f a) l) :
    (insertDescBy f x l).filter (fun y => f y == s) =
      if f x == s then l.filter (fun y => f y == s) ++ [x]
      else l.filter (fun y => f y == s) := by
  induction l with
  | nil =>
    by_cases hx : f x == s <;> simp [insertDescBy, hx]
  | cons y ys ih =>
    rw [List.pairwise_cons] at h
    unfold insertDescBy
    by_cases hc : f x ≤ f y
    · simp only [if_pos hc]
      rw [List.filter_cons, List.filter_cons]
      by_cases hy : f y == s
      · simp only [hy, if_pos]
        rw [ih h.2]
        by_cases hx : f x == s <;> simp [hx, hy]
      · simp only [hy]
        rw [ih h.2]
        by_cases hx : f x == s <;> simp [hx, hy]
    · simp only [if_neg hc]
      by_cases hx : f x == s
      · have hxs : f x = s := by simpa using hx
        have hempty : (y :: ys).filter (fun z => f z == s) = [] := by
          rw [List.filter_eq_nil_iff]
          intro z hz
          have hzy : f z ≤ f y := by
            rcases List.mem_cons.mp hz with hz | hz
            · rw [hz]
            · exact h.1 z hz
          have hlt : f z < f x := lt_of_le_of_lt hzy (lt_of_not_le hc)
          simp only [beq_iff_eq]
          omega
        rw [List.filter_cons]
        simp only [hx, if_pos]
        rw [hempty]
        simp [hx]
      · rw [List.filter_cons]
        simp [hx]

theorem sortDescBy_aux {α : Type} (f : α → Int) :
    ∀ (l acc : List α), List.Pairwise (fun a b => f b ≤ f a) acc →
      List.Pairwise (fun a b => f b ≤ f a)
          (l.foldl (fun acc x => insertDescBy f x acc) acc) ∧
      (∀ s : Int, (l.foldl (fun acc x => insertDescBy f x acc) acc).filter
            (fun y => f y == s) =
          acc.filter (fun y => f y == s) ++ l.filter (fun y => f y == s)) ∧
      (l.foldl (fun acc x => insertDescBy f x acc) acc).Perm (acc ++ l) := by
  intro l
  induction l with
  | nil =>
    intro acc h
    exact ⟨h, fun s => by simp, by simp⟩
  | cons a l ih =>
    intro acc h
    have hins := insertDescBy_pairwise f a acc h
    obtain ⟨hp, hf, hperm⟩ := ih (insertDescBy f a acc) hins
    refine ⟨hp, ?_, ?_⟩
    · intro s
      show (l.foldl (fun acc x => insertDescBy f x acc)
          (insertDescBy f a acc)).filter (fun y => f y == s) = _
      rw [hf s, insertDescBy_filter f s a acc h, List.filter_cons]
      by_cases hx : f a == s <;> simp [hx]
    · show (l.foldl (fun acc x => insertDescBy f x acc)
          (insertDescBy f a acc)).Perm (acc ++ a :: l)
      have h1 : (insertDescBy f a acc ++ l).Perm ((a :: acc) ++ l) :=
        (insertDescBy_perm f a acc).append_right l
      have h2 : ((a :: acc) ++ l).Perm (acc ++ a :: l) := by
        simpa using (@List.perm_middle _ a acc l).symm
      exact hperm.trans (h1.trans h2)

/-- `sortDescBy` is a stable descending sort: the output is sorted by
descending key, elements of any fixed key keep their input order, and the
output is a permutation of the input. -/
theorem sortDescBy_props {α : Type} (f : α → Int) (l : List α) :
    List.Pairwise (fun a b => f b ≤ f a) (sortDescBy f l) ∧
    (∀ s : Int, (sortDescBy f l).filter (fun y => f y == s) =
      l.filter (fun y => f y == s)) ∧
    (sortDescBy f l).Perm l := by
  obtain ⟨hp, hf, hperm⟩ := sortDescBy_aux f l [] (by simp)
  exact ⟨hp, fun s => by simpa using hf s, by simpa using hperm⟩

/-! ## Breadth/depth scheduler (`orchestrator.py`, `process_findings`)

After the breadth pass every top-level condition carries a heuristic
score and a state.  The depth pass (lines 786-798) iterates over
`sorted(scored, key=lambda x: x[0], reverse=True)[:bfs_budget]` and gives
`resolve_condition(..., max_steps=max_steps, start_step=1)` to each
element whose state is still `"unknown"`, skipping the rest. -/

/-- A top-level condition as the depth pass sees it: its heuristic score,
its state after the breadth pass, and its input position. -/
structure SCond where
  score : Int
  state : CState
  id : Nat
deriving DecidableEq, Repr

/-- One depth-pass resolve call. -/
structure DepthAction where
  cond : SCond
  startStep : Nat
  maxSteps : Nat
deriving DecidableEq, Repr

/-- The depth pass of `Orchestrator.process_findings`: slice the stable
descending sort of ALL scored conditions to `bfs_budget`, then resolve
(start step 1) those still unknown and skip the others. -/
def depthPass (scored : List SCond) (bfsBudget maxSteps : Nat) :
    List DepthAction :=
  ((sortDescBy SCond.score scored).take bfsBudget).filterMap
    (fun c => if c.state = CState.unknown
      then some { cond := c, startStep := 1, maxSteps := maxSteps }
      else none)

/-- Written from the specification's words, for comparison with
`depthPass`: sort the still-unknown conditions by score descending and
take the top `bfs_budget`. -/
def specDepthSelection (scored : List SCond) (bfsBudget : Nat) : List SCond :=
  (sortDescBy SCond.score
    (scored.filter (fun c => c.state == CState.unknown))).take bfsBudget

theorem depthPass_map_cond (scored : List SCond) (bfsBudget maxSteps : Nat) :
    (depthPass scored bfsBudget maxSteps).map DepthAction.cond =
      ((sortDescBy SCond.score scored).take bfsBudget).filter
        (fun c => c.state == CState.unknown) := by
  unfold depthPass
  generalize (sortDescBy SCond.score scored).take bfsBudget = l
  induction l with
  | nil => rfl
  | cons a l ih =>
    by_cases h : a.state = CState.unknown
    · simp [List.filterMap_cons, h, List.filter_cons, ih]
    · simp [List.filterMap_cons, h, List.filter_cons, ih]

/-- C6 counterexample: with `bfs_budget = 1`, a high-scoring condition that
is already `satisfied` occupies the single budget slot, so the
still-unknown condition — the top (indeed only) unknown condition by
score — receives no depth cycle, contradicting the claim that the
conditions receiving depth cycles are exactly the top `bfs_budget` of the
still-unknown ones. -/
theorem C6_counterexample :
    depthPass [⟨5, CState.satisfied, 0⟩, ⟨0, CState.unknown, 1⟩] 1 3 = [] ∧
    specDepthSelection [⟨5, CState.satisfied, 0⟩, ⟨0, CState.unknown, 1⟩] 1 =
      [⟨0, CState.unknown, 1⟩] := by
  decide

/-- C6 amended: the depth pass slices the stable descending sort of ALL
scored conditions to the top `bfs_budget` and then gives depth cycles
(starting at step index 1, up to `max_steps`) exactly to the still-unknown
conditions inside that slice; the sort is by score descending with input
order as tiebreak (stability), so still-unknown conditions outside the
slice receive no depth cycles. -/
theorem C6_depth_pass (scored : List SCond) (bfsBudget maxSteps : Nat) :
    (∀ a ∈ depthPass scored bfsBudget maxSteps,
      a.startStep = 1 ∧ a.maxSteps = maxSteps ∧
        a.cond.state = CState.unknown) ∧
    (depthPass scored bfsBudget maxSteps).map DepthAction.cond =
      ((sortDescBy SCond.score scored).take bfsBudget).filter
        (fun c => c.state == CState.unknown) ∧
    List.Pairwise (fun a b => SCond.score b ≤ SCond.score a)
      (sortDescBy SCond.score scored) ∧
    (∀ s : Int, (sortDescBy SCond.score scored).filter
        (fun c => SCond.score c == s) =
      scored.filter (fun c => SCond.score c == s)) ∧
    (sortDescBy SCond.score scored).Perm scored := by
  obtain ⟨hp, hf, hperm⟩ := sortDescBy_props SCond.score scored
  refine ⟨?_, depthPass_map_cond scored bfsBudget maxSteps, hp, hf, hperm⟩
  intro a ha
  unfold depthPass at ha
  rcases List.mem_filterMap.mp ha with ⟨c, _, hsome⟩
  by_cases h : c.state = CState.unknown
  · rw [if_pos h] at hsome
    cases hsome
    exact ⟨rfl, rfl, h⟩
  · rw [if_neg h] at hsome
    exact absurd hsome (by simp)

/-- Witness for the amended C6 at a concrete input: the single unknown
condition in the slice receives a depth cycle starting at step 1. -/
theorem C6_depth_pass_witness :
    DepthAction.startStep ⟨⟨0, CState.unknown, 0⟩, 1, 3⟩ = 1 ∧
    DepthAction.maxSteps ⟨⟨0, CState.unknown, 0⟩, 1, 3⟩ = 3 ∧
    SCond.state (DepthAction.cond ⟨⟨0, CState.unknown, 0⟩, 1, 3⟩) =
      CState.unknown :=
  (C6_depth_pass [⟨0, CState.unknown, 0⟩] 1 3).1
    ⟨⟨0, CState.unknown, 0⟩, 1, 3⟩ (by decide)

/-! ## Plan post-processing (`orchestrator.py`, `generate_tasks`)

After the planner LLM returns task objects, the engine (lines 388-443)
keeps `mode == "exec"` tasks deduplicated by `(mode, text)`, wraps them as
`codex:exec:<path>::<text>`, applies the two verb-diversity filters (each
falling back to the unfiltered list when the filter would empty it),
collapses to one task per verb, caps to three, and appends a synthetic
callgraph task when no surviving task's verb is `callgraph`/`dataflow`. -/

/-- A task object from the planner LLM (`emit_tasks`). -/
structure PTask where
  text : String
  mode : String
  why : String
deriving DecidableEq, Repr

/-- An engine-side task dict (`task`/`why`/`mode`/`original`). -/
structure ETask where
  task : String
  why : String
  mode : String
  original : String
deriving DecidableEq, Repr

/-- `_verb` from `orchestrator.py`: the first whitespace-separated token,
lowercased (empty input gives the empty verb). -/
def pyVerb (s : String) : String :=
  String.mk (((s.data.dropWhile Char.isWhitespace).takeWhile
    (fun c => !c.isWhitespace)).map Char.toLower)

/-- The keep-exec-and-dedup loop over the planner's tasks
(`generate_tasks`, lines 388-397): skip tasks whose mode is not `"exec"`
or whose `(mode, text)` was already seen. -/
def dedupExecTasks : List PTask → List (String × String) → List PTask
  | [], _ => []
  | t :: ts, seen =>
    if t.mode ≠ "exec" then dedupExecTasks ts seen
    else if (t.mode, t.text) ∈ seen then dedupExecTasks ts seen
    else t :: dedupExecTasks ts ((t.mode, t.text) :: seen)

/-- Wrapping a planner task into the agent form
`codex:exec:<path>::<text>` (lines 398-407). -/
def toExecTask (path : String) (t : PTask) : ETask :=
  { task := "codex:exec:" ++ path ++ "::" ++ t.text
    why := t.why
    mode := t.mode
    original := t.text }

/-- Verb-diversity step one (lines 409-413): when diversity is on and the
condition has a last verb, drop tasks repeating it — unless that would
drop everything, in which case the list is kept unchanged. -/
def dropLastVerb (planDiversity : Bool) (lastVerb : String)
    (tasks : List ETask) : List ETask :=
  if planDiversity ∧ lastVerb ≠ "" then
    let alt := tasks.filter (fun t => pyVerb t.original ≠ lastVerb)
    if alt ≠ [] then alt else tasks
  else tasks

/-- Verb-diversity step two (lines 415-420): when fewer than three verbs
have been used, drop tasks whose verb was already used — the `or tasks`
fallback keeps the unfiltered list when the filter empties it. -/
def dropUsedVerbs (planDiversity : Bool) (usedVerbs : List String)
    (tasks : List ETask) : List ETask :=
  if planDiversity ∧ usedVerbs.length < 3 then
    let alt := tasks.filter (fun t => pyVerb t.original ∉ usedVerbs)
    if alt ≠ [] then alt else tasks
  else tasks

/-- Collapse to at most one task per distinct verb (lines 422-429). -/
def dedupByVerb : List ETask → List String → List ETask
  | [], _ => []
  | t :: ts, verbs =>
    if pyVerb t.original ∈ verbs then dedupByVerb ts verbs
    else t :: dedupByVerb ts (pyVerb t.original :: verbs)

/-- The synthetic callgraph shortest-path task (lines 434-443). -/
def syntheticTask (path : String) : ETask :=
  { task := "codex:exec:" ++ path ++
      "::callgraph from any discovered sink symbol to any public entrypoint; return shortest path with file:line ranges."
    why := "force cross-file reachability"
    mode := "exec"
    original := "callgraph shortest-path" }

/-- Append the synthetic task when no task's verb is `callgraph` or
`dataflow` (lines 432-443). -/
def addSynthetic (path : String) (tasks : List ETask) : List ETask :=
  if tasks.any (fun t => pyVerb t.original == "callgraph"
      || pyVerb t.original == "dataflow") then tasks
  else tasks ++ [syntheticTask path]

/-- Stage outputs of `generate_tasks` post-processing, in source order. -/
def planDeduped (path : String) (proposed : List PTask) : List ETask :=
  (dedupExecTasks proposed []).map (toExecTask path)

/-- The task list after the last-verb diversity filter. -/
def planAfterLast (pd : Bool) (path lastVerb : String)
    (proposed : List PTask) : List ETask :=
  dropLastVerb pd lastVerb (planDeduped path proposed)

/-- The task list after the used-verbs diversity filter. -/
def planAfterUsed (pd : Bool) (path lastVerb : String)
    (usedVerbs : List String) (proposed : List PTask) : List ETask :=
  dropUsedVerbs pd usedVerbs (planAfterLast pd path lastVerb proposed)

/-- The task list after verb dedup and the cap to three. -/
def planMain (pd : Bool) (path lastVerb : String) (usedVerbs : List String)
    (proposed : List PTask) : List ETask :=
  (dedupByVerb (planAfterUsed pd path lastVerb usedVerbs proposed) []).take 3

/-- The full post-processing pipeline of `generate_tasks`. -/
def generateTasksPost (pd : Bool) (path lastVerb : String)
    (usedVerbs : List String) (proposed : List PTask) : List ETask :=
  addSynthetic path (planMain pd path lastVerb usedVerbs proposed)

theorem mem_dedupByVerb (t : ETask) :
    ∀ (l : List ETask) (verbs : List String),
      t ∈ dedupByVerb l verbs → t ∈ l := by
  intro l
  induction l with
  | nil => intro verbs h; exact absurd h (List.not_mem_nil t)
  | cons a l ih =>
    intro verbs h
    unfold dedupByVerb at h
    by_cases hc : pyVerb a.original ∈ verbs
    · rw [if_pos hc] at h
      exact List.mem_cons_of_mem a (ih verbs h)
    · rw [if_neg hc] at h
      rcases List.mem_cons.mp h with h | h
      · rw [h]; exact List.mem_cons_self a l
      · exact List.mem_cons_of_mem a (ih _ h)

theorem mem_planMain (pd : Bool) (path lastVerb : String)
    (usedVerbs : List String) (proposed : List PTask) (t : ETask)
    (h : t ∈ planMain pd path lastVerb usedVerbs proposed) :
    t ∈ planAfterUsed pd path lastVerb usedVerbs proposed :=
  mem_dedupByVerb t _ [] (List.take_subset 3 _ h)

theorem mem_afterUsed (pd : Bool) (path lastVerb : String)
    (usedVerbs : List String) (proposed : List PTask) (t : ETask)
    (h : t ∈ planAfterUsed pd path lastVerb usedVerbs proposed) :
    t ∈ planAfterLast pd path lastVerb proposed := by
  unfold planAfterUsed dropUsedVerbs at h
  by_cases hc : pd = true ∧ usedVerbs.length < 3
  · rw [if_pos hc] at h
    by_cases he : (planAfterLast pd path lastVerb proposed).filter
        (fun t => pyVerb t.original ∉ usedVerbs) ≠ []
    · rw [if_pos he] at h
      exact List.mem_of_mem_filter h
    · rw [if_neg he] at h
      exact h
  · rw [if_neg hc] at h
    exact h

/-- C7 counterexample: with diversity enabled, `last_verb = "search"`,
`used_verbs = {"search"}` and a plan consisting only of `search` tasks,
both diversity filters fall back to the unfiltered list (the `if alt:` /
`or tasks` fallbacks), so the final plan still contains a task whose
leading verb equals `last_verb`, contradicting the claim that every such
re-proposed task is dropped. -/
theorem C7_counterexample :
    ∃ t ∈ generateTasksPost true "p.py" "search" ["search"]
        [⟨"search for foo", "exec", "w"⟩], pyVerb t.original = "search" := by
  refine ⟨toExecTask "p.py" ⟨"search for foo", "exec", "w"⟩, ?_, ?_⟩
  · decide
  · decide

/-- C7 amended: with diversity enabled and a non-empty `last_verb`, tasks
repeating `last_verb` are dropped provided at least one deduplicated task
has a different verb (otherwise the list is kept unchanged); tasks whose
verb is already used are dropped, when fewer than three verbs were used,
provided the filter leaves at least one task; and the synthetic callgraph
shortest-path task is appended exactly when no surviving task's verb is
`callgraph` or `dataflow`. -/
theorem C7_plan_diversity (path lastVerb : String) (usedVerbs : List String)
    (proposed : List PTask) (hlv : lastVerb ≠ "") :
    ((∃ t ∈ planDeduped path proposed, pyVerb t.original ≠ lastVerb) →
      ∀ t ∈ planMain true path lastVerb usedVerbs proposed,
        pyVerb t.original ≠ lastVerb) ∧
    (usedVerbs.length < 3 →
      (∃ t ∈ planAfterLast true path lastVerb proposed,
        pyVerb t.original ∉ usedVerbs) →
      ∀ t ∈ planMain true path lastVerb usedVerbs proposed,
        pyVerb t.original ∉ usedVerbs) ∧
    ((∀ t ∈ planMain true path lastVerb usedVerbs proposed,
        pyVerb t.original ≠ "callgraph" ∧ pyVerb t.original ≠ "dataflow") →
      generateTasksPost true path lastVerb usedVerbs proposed =
        planMain true path lastVerb usedVerbs proposed ++ [syntheticTask path]) ∧
    ((∃ t ∈ planMain true path lastVerb usedVerbs proposed,
        pyVerb t.original = "callgraph" ∨ pyVerb t.original = "dataflow") →
      generateTasksPost true path lastVerb usedVerbs proposed =
        planMain true path lastVerb usedVerbs proposed) := by
  refine ⟨?_, ?_, ?_, ?_⟩
  · rintro ⟨w, hw, hwv⟩ t ht
    have h1 := mem_afterUsed _ _ _ _ _ _ (mem_planMain _ _ _ _ _ _ ht)
    unfold planAfterLast dropLastVerb at h1
    rw [if_pos ⟨rfl, hlv⟩] at h1
    have hne : (planDeduped path proposed).filter
        (fun t => pyVerb t.original ≠ lastVerb) ≠ [] := by
      intro hempty
      have hwmem : w ∈ (planDeduped path proposed).filter
          (fun t => pyVerb t.original ≠ lastVerb) := by
        rw [List.mem_filter]
        exact ⟨hw, by simpa using hwv⟩
      rw [hempty] at hwmem
      exact absurd hwmem (List.not_mem_nil w)
    rw [if_pos hne] at h1
    have := (List.mem_filter.mp h1).2
    simpa using this
  · rintro hlen ⟨w, hw, hwv⟩ t ht
    have h1 := mem_planMain _ _ _ _ _ _ ht
    unfold planAfterUsed dropUsedVerbs at h1
    rw [if_pos ⟨rfl, hlen⟩] at h1
    have hne : (planAfterLast true path lastVerb proposed).filter
        (fun t => pyVerb t.original ∉ usedVerbs) ≠ [] := by
      intro hempty
      have hwmem : w ∈ (planAfterLast true path lastVerb proposed).filter
          (fun t => pyVerb t.original ∉ usedVerbs) := by
        rw [List.mem_filter]
        exact ⟨hw, by simpa using hwv⟩
      rw [hempty] at hwmem
      exact absurd hwmem (List.not_mem_nil w)
    rw [if_pos hne] at h1
    have := (List.mem_filter.mp h1).2
    simpa using this
  · intro hno
    unfold generateTasksPost addSynthetic
    rw [if_neg ?hn]
    case hn =>
      intro hany
      rw [List.any_eq_true] at hany
      rcases hany with ⟨t, ht, htv⟩
      rcases Bool.or_eq_true _ _ |>.mp htv with hv | hv
      · exact (hno t ht).1 (by simpa using hv)
      · exact (hno t ht).2 (by simpa using hv)
  · rintro ⟨t, ht, hv⟩
    unfold generateTasksPost addSynthetic
    rw [if_pos ?hp]
    case hp =>
      rw [List.any_eq_true]
      refine ⟨t, ht, ?_⟩
      rcases hv with hv | hv
      · simp [hv]
      · simp [hv]

/-- Witness for the amended C7 at a concrete input: a `read-file` task
survives the `search` last-verb filter with its verb different from
`search`. -/
theorem C7_plan_diversity_witness :
    pyVerb (ETask.original (toExecTask "p.py"
      ⟨"read-file foo", "exec", "w"⟩)) ≠ "search" :=
  (C7_plan_diversity "p.py" "search" [] [⟨"read-file foo", "exec", "w"⟩]
    (by decide)).1
    ⟨toExecTask "p.py" ⟨"read-file foo", "exec", "w"⟩, by decide, by decide⟩
    (toExecTask "p.py" ⟨"read-file foo", "exec", "w"⟩) (by decide)

/-! ## Task execution ordering (`orchestrator.py`, `_execute_tasks`)

Worker results carry `input_sha1 = sha1(goal)`; after the pool completes,
the engine sorts the result tuples by that digest before appending to the
condition's `evidence` and the finding's `tasks_log`.  The digest is
abstracted as a parameter `h`; the pool's delivery order is modelled as an
arbitrary permutation of the canonical result list. -/

def insertAscBy {α β : Type} [LinearOrder β] (f : α → β) (x : α) : List α → List α
  | [] => [x]
  | y :: ys => if f y ≤ f x then y :: insertAscBy f x ys else x :: y :: ys

def sortAscBy {α β : Type} [LinearOrder β] (f : α → β) (l : List α) : List α :=
  l.foldl (fun acc x => insertAscBy f x acc) []

theorem insertAscBy_perm {α β : Type} [LinearOrder β] (f : α → β) (x : α) (l : List α) :
    (insertAscBy f x l).Perm (x :: l) := by
  induction l with
  | nil => simp [insertAscBy]
  | cons y ys ih =>
    unfold insertAscBy
    by_cases h : f y ≤ f x
    · simp only [if_pos h]
      exact (ih.cons y).trans (List.Perm.swap x y ys)
    · simp only [if_neg h]
      exact List.Perm.refl _

theorem insertAscBy_pairwise {α β : Type} [LinearOrder β] (f : α → β) (x : α) (l : List α)
    (h : List.Pairwise (fun a b => f a ≤ f b) l) :
    List.Pairwise (fun a b => f a ≤ f b) (insertAscBy f x l) := by
  induction l with
  | nil => simp [insertAscBy]
  | cons y ys ih =>
    rw [List.pairwise_cons] at h
    unfold insertAscBy
    by_cases hc : f y ≤ f x
    · simp only [if_pos hc]
      rw [List.pairwise_cons]
      refine ⟨?_, ih h.2⟩
      intro z hz
      rcases List.mem_cons.mp ((insertAscBy_perm f x ys).mem_iff.mp hz) with hz | hz
      · rw [hz]; exact hc
      · exact h.1 z hz
    · simp only [if_neg hc]
      rw [List.pairwise_cons]
      refine ⟨?_, List.pairwise_cons.mpr h⟩
      intro z hz
      rcases List.mem_cons.mp hz with hz | hz
      · rw [hz]; exact le_of_not_le hc
      · exact le_trans (le_of_not_le hc) (h.1 z hz)

theorem sortAscBy_aux {α β : Type} [LinearOrder β] (f : α → β) :
    ∀ (l acc : List α), List.Pairwise (fun a b => f a ≤ f b) acc →
      List.Pairwise (fun a b => f a ≤ f b)
          (l.foldl (fun acc x => insertAscBy f x acc) acc) ∧
      (l.foldl (fun acc x => insertAscBy f x acc) acc).Perm (acc ++ l) := by
  intro l
  induction l with
  | nil =>
    intro acc h
    exact ⟨h, by simp⟩
  | cons a l ih =>
    intro acc h
    obtain ⟨hp, hperm⟩ := ih (insertAscBy f a acc) (insertAscBy_pairwise f a acc h)
    refine ⟨hp, ?_⟩
    show (l.foldl (fun acc x => insertAscBy f x acc)
        (insertAscBy f a acc)).Perm (acc ++ a :: l)
    have h1 : (insertAscBy f a acc ++ l).Perm ((a :: acc) ++ l) :=
      (insertAscBy_perm f a acc).append_right l
    have h2 : ((a :: acc) ++ l).Perm (acc ++ a :: l) := by
      simpa using (@List.perm_middle _ a acc l).symm
    exact hperm.trans (h1.trans h2)

theorem sortAscBy_sorted {α β : Type} [LinearOrder β] (f : α → β) (l : List α) :
    List.Pairwise (fun a b => f a ≤ f b) (sortAscBy f l) :=
  (sortAscBy_aux f l [] (by simp)).1

theorem sortAscBy_perm {α β : Type} [LinearOrder β] (f : α → β) (l : List α) :
    (sortAscBy f l).Perm l := by
  have := (sortAscBy_aux f l [] (by simp)).2
  simpa using this

theorem eq_of_perm_of_pairwise_lt {α β : Type} [LinearOrder β] (f : α → β) :
    ∀ (l₁ l₂ : List α), l₁.Perm l₂ →
      List.Pairwise (fun a b => f a < f b) l₁ →
      List.Pairwise (fun a b => f a < f b) l₂ → l₁ = l₂ := by
  intro l₁
  induction l₁ with
  | nil =>
    intro l₂ hperm _ _
    exact (List.Perm.nil_eq hperm)
  | cons a t₁ ih =>
    intro l₂ hperm h₁ h₂
    cases l₂ with
    | nil => exact absurd hperm.symm (by simp)
    | cons b t₂ =>
      rw [List.pairwise_cons] at h₁ h₂
      have hab : a = b := by
        by_contra hne
        have hamem : a ∈ b :: t₂ := hperm.mem_iff.mp (List.mem_cons_self a t₁)
        have hat₂ : a ∈ t₂ := by
          rcases List.mem_cons.mp hamem with h | h
          · exact absurd h hne
          · exact h
        have hbmem : b ∈ a :: t₁ := hperm.symm.mem_iff.mp (List.mem_cons_self b t₂)
        have hbt₁ : b ∈ t₁ := by
          rcases List.mem_cons.mp hbmem with h | h
          · exact absurd h.symm hne
          · exact h
        have hlt1 : f a < f b := h₁.1 b hbt₁
        have hlt2 : f b < f a := h₂.1 a hat₂
        exact absurd hlt1 (not_lt_of_lt hlt2)
      subst hab
      have htperm : t₁.Perm t₂ := hperm.cons_inv
      rw [ih t₂ htperm h₁.2 h₂.2]

theorem sortAscBy_eq_of_perm {α β : Type} [LinearOrder β] (f : α → β) (l₁ l₂ : List α)
    (hperm : l₁.Perm l₂) (hnd : (l₁.map f).Nodup) :
    sortAscBy f l₁ = sortAscBy f l₂ := by
  have hnd₂ : (l₂.map f).Nodup := ((hperm.map f).nodup_iff).mp hnd
  have key : ∀ (l : List α), (l.map f).Nodup →
      List.Pairwise (fun a b => f a < f b) (sortAscBy f l) := by
    intro l hl
    have hle := sortAscBy_sorted f l
    have hne : List.Pairwise (fun a b => f a ≠ f b) (sortAscBy f l) := by
      have hmap : ((sortAscBy f l).map f).Nodup :=
        (((sortAscBy_perm f l).map f).nodup_iff).mpr hl
      rw [List.Nodup, List.pairwise_map] at hmap
      exact hmap
    exact (hle.and hne).imp (fun h => lt_of_le_of_ne h.1 h.2)
  exact eq_of_perm_of_pairwise_lt f _ _
    (((sortAscBy_perm f l₁).trans hperm).trans (sortAscBy_perm f l₂).symm)
    (key l₁ hnd) (key l₂ hnd₂)

structure XTask where
  task : String
  mode : String
  original : String
deriving DecidableEq, Repr

structure PairRes where
  t : XTask
  out : Option String
  err : Option String
  inputSha1 : String
deriving DecidableEq, Repr

structure TaskResult where
  task : String
  mode : String
  original : String
  output : Option String
  error : Option String
  inputSha1 : String
deriving DecidableEq, Repr

def runTask (h : String → String) (agent : String → Except String String)
    (t : XTask) : PairRes :=
  match agent t.task with
  | Except.ok out => ⟨t, some out, none, h t.task⟩
  | Except.error e => ⟨t, none, some e, h t.task⟩

def workerPairs (h : String → String) (agent : String → Except String String)
    (tasks : List XTask) : List PairRes :=
  tasks.map (runTask h agent)

def evidenceAppends (pairs : List PairRes) : List String :=
  (sortAscBy PairRes.inputSha1 pairs).filterMap PairRes.out

def taskResults (pairs : List PairRes) : List TaskResult :=
  (sortAscBy PairRes.inputSha1 pairs).map (fun p =>
    { task := p.t.task, mode := p.t.mode, original := p.t.original
      output := p.out, error := p.err, inputSha1 := p.inputSha1 })

theorem C8_exec_result_order (h : String → String)
    (agent : String → Except String String) (tasks : List XTask)
    (hnd : ((workerPairs h agent tasks).map PairRes.inputSha1).Nodup) :
    (∀ l : List PairRes, l.Perm (workerPairs h agent tasks) →
      evidenceAppends l = evidenceAppends (workerPairs h agent tasks) ∧
      taskResults l = taskResults (workerPairs h agent tasks)) ∧
    List.Pairwise (fun a b => PairRes.inputSha1 a ≤ PairRes.inputSha1 b)
      (sortAscBy PairRes.inputSha1 (workerPairs h agent tasks)) ∧
    (∀ r ∈ taskResults (workerPairs h agent tasks), r.inputSha1 = h r.task) := by
  refine ⟨?_, sortAscBy_sorted _ _, ?_⟩
  · intro l hperm
    have hl : (l.map PairRes.inputSha1).Nodup :=
      ((hperm.map PairRes.inputSha1).nodup_iff).mpr hnd
    have hs := sortAscBy_eq_of_perm PairRes.inputSha1 l
      (workerPairs h agent tasks) hperm hl
    unfold evidenceAppends taskResults
    rw [hs]
    exact ⟨rfl, rfl⟩
  · intro r hr
    unfold taskResults at hr
    rcases List.mem_map.mp hr with ⟨p, hp, hpr⟩
    have hmem : p ∈ workerPairs h agent tasks :=
      (sortAscBy_perm PairRes.inputSha1 _).mem_iff.mp hp
    rcases List.mem_map.mp hmem with ⟨t, _, ht⟩
    have hpt : p.t = t ∧ p.inputSha1 = h t.task := by
      rw [← ht]
      unfold runTask
      cases agent t.task <;> exact ⟨rfl, rfl⟩
    rw [← hpr]
    simp only
    rw [hpt.2, hpt.1]

theorem C8_exec_result_order_witness :
    (evidenceAppends
        [runTask id (fun g => Except.ok ("o" ++ g)) ⟨"b", "exec", "b"⟩,
         runTask id (fun g => Except.ok ("o" ++ g)) ⟨"a", "exec", "a"⟩] =
      evidenceAppends (workerPairs id (fun g => Except.ok ("o" ++ g))
        [⟨"a", "exec", "a"⟩, ⟨"b", "exec", "b"⟩])) ∧
    (taskResults
        [runTask id (fun g => Except.ok ("o" ++ g)) ⟨"b", "exec", "b"⟩,
         runTask id (fun g => Except.ok ("o" ++ g)) ⟨"a", "exec", "a"⟩] =
      taskResults (workerPairs id (fun g => Except.ok ("o" ++ g))
        [⟨"a", "exec", "a"⟩, ⟨"b", "exec", "b"⟩])) :=
  (C8_exec_result_order id (fun g => Except.ok ("o" ++ g))
      [⟨"a", "exec", "a"⟩, ⟨"b", "exec", "b"⟩] (by decide)).1
    [runTask id (fun g => Except.ok ("o" ++ g)) ⟨"b", "exec", "b"⟩,
     runTask id (fun g => Except.ok ("o" ++ g)) ⟨"a", "exec", "a"⟩]
    (List.Perm.swap _ _ _)

/-! ## Task agent (`codex_agent.py`)

`CodexAgent` parses task strings, invokes the dispatcher, validates the
JSON reply, and normalizes failures.  JSON values are modelled by `JVal`;
the dispatcher outcome (`self.codex.exec`) is abstracted by
`DispatchOutcome`, with `json.loads` of the captured standard output
folded into it. -/

/-- Python slice `s[:n]` over characters. -/
def strTake (s : String) (n : Nat) : String := String.mk (s.data.take n)

/-- Python `s.startswith(pre)`. -/
def strStarts (s pre : String) : Bool := pre.data.isPrefixOf s.data

/-- Python `s.strip()`. -/
def pyStrip (s : String) : String :=
  String.mk (((s.data.dropWhile Char.isWhitespace).reverse.dropWhile
    Char.isWhitespace).reverse)

/-- Helper splitting a character list at `/` boundaries. -/
def splitSlashAux : List Char → List Char → List String
  | [], acc => [String.mk acc.reverse]
  | c :: cs, acc =>
    if c = '/' then String.mk acc.reverse :: splitSlashAux cs []
    else splitSlashAux cs (c :: acc)

/-- Split a path string into its `/`-separated segments. -/
def splitSlash (s : String) : List String := splitSlashAux s.data []

/-- Whether the path string is absolute. -/
def isAbsPath (s : String) : Bool :=
  match s.data with
  | c :: _ => c = '/'
  | [] => false

/-- `(root / p).resolve()` over path components: an absolute `p`
replaces the root, empty and `.` segments are dropped, `..` pops one
component (symlinks are not modelled). -/
def resolvePath (root : List String) (p : String) : List String :=
  let start := if isAbsPath p then [] else root
  (splitSlash p).foldl
    (fun acc c =>
      if c = "" ∨ c = "." then acc
      else if c = ".." then acc.dropLast
      else acc ++ [c]) start

/-- Join components with `/`. -/
def joinSlash : List String → String
  | [] => ""
  | [c] => c
  | c :: cs => c ++ "/" ++ joinSlash cs

/-- `CodexAgent._repo_rel` (`codex_agent.py` lines 38-43): resolve
`root / p`; if the result is neither the root nor a descendant of it,
fail; otherwise return the root-relative form (`"."` for the root
itself, as `str(Path("."))`). -/
def repoRel (root : List String) (p : String) : Option String :=
  let abspath := resolvePath root p
  if root.isPrefixOf abspath then
    if abspath = root then some "." else some (joinSlash (abspath.drop root.length))
  else none

/-- The task grammar accepted by `CodexAgent._parse_task`. -/
inductive ParsedTask
  | discover (path : String)
  | exec (path : String) (payload : String)

/-- Python `str.startswith` + removal of the matched literal. -/
def dropPre : List Char → List Char → Option (List Char)
  | [], cs => some cs
  | _ :: _, [] => none
  | p :: ps, c :: cs => if c = p then dropPre ps cs else none

/-- Python `rest.split("::", 1)`: split at the first `::`. -/
def splitTwoColon : List Char → Option (List Char × List Char)
  | [] => none
  | ':' :: ':' :: rest => some ([], rest)
  | c :: rest =>
    match splitTwoColon rest with
    | some (a, b) => some (c :: a, b)
    | none => none

/-- `CodexAgent._parse_task` (`codex_agent.py` lines 23-36): recognize
`codex:discover:<path>` and `codex:exec:<path>::<goal>`, canonicalize the
path through `_repo_rel`, and reject anything else. -/
def parseTask (root : List String) (task : String) : Except String ParsedTask :=
  match dropPre "codex:discover:".data task.data with
  | some rest =>
    match repoRel root (pyStrip (String.mk rest)) with
    | some rel => Except.ok (ParsedTask.discover rel)
    | none => Except.error "path outside repo"
  | none =>
    match dropPre "codex:exec:".data task.data with
    | some rest =>
      match splitTwoColon rest with
      | none => Except.error "unsupported task"
      | some (pathCs, payloadCs) =>
        match repoRel root (pyStrip (String.mk pathCs)) with
        | some rel =>
          Except.ok (ParsedTask.exec rel (pyStrip (String.mk payloadCs)))
        | none => Except.error "path outside repo"
    | none => Except.error "unsupported task"

/-- A parsed JSON value (the result of `json.loads`). -/
inductive JVal
  | null
  | bool (b : Bool)
  | num (n : Int)
  | str (s : String)
  | arr (xs : List JVal)
  | obj (fields : List (String × JVal))

/-- First-match lookup in an association list (Python dicts from
`json.loads` have unique keys; reused for the seed-source dictionaries of
`run_pipeline.main`). -/
def lookupV {β : Type} : List (String × β) → String → Option β
  | [], _ => none
  | (k', v) :: rest, k => if k' = k then some v else lookupV rest k

/-- Raw dictionary lookup. -/
def jGet (v : JVal) (k : String) : Option JVal :=
  match v with
  | JVal.obj fields => lookupV fields k
  | _ => none

/-- Python `data.get(k)`: `None` both for a missing key and for a JSON
`null` value, which Python stores as `None`. -/
def pyGet (v : JVal) (k : String) : Option JVal :=
  match jGet v k with
  | some JVal.null => none
  | o => o

/-- Python `d[k] = v`: replace in place when present, append otherwise. -/
def setV {β : Type} (fields : List (String × β)) (k : String) (v : β) :
    List (String × β) :=
  if (lookupV fields k).isSome then
    fields.map (fun kv => if kv.1 = k then (k, v) else kv)
  else fields ++ [(k, v)]

/-- `d[k] = v` on a JSON object. -/
def jSet (d : JVal) (k : String) (v : JVal) : JVal :=
  match d with
  | JVal.obj fields => JVal.obj (setV fields k v)
  | x => x

/-- Python `isinstance(x, str)` on a `.get` result. -/
def pyIsStr : Option JVal → Bool
  | some (JVal.str _) => true
  | _ => false

/-- Python `isinstance(x, list)` on a `.get` result. -/
def pyIsArr : Option JVal → Bool
  | some (JVal.arr _) => true
  | _ => false

/-- Python `isinstance(x, int)` on a `.get` result; Python `bool` is an
`int` subclass. -/
def pyIsInt : Option JVal → Bool
  | some (JVal.num _) => true
  | some (JVal.bool _) => true
  | _ => false

/-- Python `x == 1` on a `.get` result; `True == 1` holds in Python. -/
def pyEqOne : Option JVal → Bool
  | some (JVal.num n) => n == 1
  | some (JVal.bool b) => b
  | _ => false

/-- Python `x == s` for a string literal `s`. -/
def pyEqStr (o : Option JVal) (s : String) : Bool :=
  match o with
  | some (JVal.str t) => t == s
  | _ => false

/-- `c.get("sha1") is None or isinstance(c.get("sha1"), str)`. -/
def sha1Ok : Option JVal → Bool
  | none => true
  | some (JVal.str _) => true
  | _ => false

/-- The per-citation schema check of `_postprocess` (lines 94-102). -/
def validCitation (c : JVal) : Bool :=
  match c with
  | JVal.obj _ =>
    pyIsStr (pyGet c "path") && pyIsInt (pyGet c "start_line")
      && pyIsInt (pyGet c "end_line") && sha1Ok (pyGet c "sha1")
  | _ => false

/-- Python truthiness of a JSON value. -/
def jTruthy : JVal → Bool
  | JVal.null => false
  | JVal.bool b => b
  | JVal.num n => n != 0
  | JVal.str s => !s.data.isEmpty
  | JVal.arr xs => !xs.isEmpty
  | JVal.obj fs => !fs.isEmpty

/-- Python `x or {}`. -/
def orEmptyObj (o : Option JVal) : JVal :=
  match o with
  | some v => if jTruthy v then v else JVal.obj []
  | none => JVal.obj []

/-- The exec arm of `CodexAgent._postprocess` (lines 85-105): schema
checks raising `ValueError`, then the in-place rewrite of a non-error
summary with empty citations to `"error: missing-citation"`. -/
def validateExec (data : JVal) : Except String JVal :=
  if (match data with | JVal.obj _ => true | _ => false)
      && pyEqOne (pyGet data "schema_version")
      && pyEqStr (pyGet data "stage") "exec"
      && pyIsStr (pyGet data "summary")
      && pyIsArr (pyGet data "citations") then
    match pyGet data "summary", pyGet data "citations" with
    | some (JVal.str summary), some (JVal.arr citations) =>
      if citations.all validCitation then
        if !(strStarts summary "error:") && citations.isEmpty then
          Except.ok (jSet data "summary" (JVal.str "error: missing-citation"))
        else Except.ok data
      else Except.error "invalid citation object"
    | _, _ => Except.error "invalid exec observation"
  else Except.error "invalid exec observation"

/-- The discover arm of `CodexAgent._postprocess` (lines 106-118):
schema checks and truncation of `evidence.highlights` to three entries.
Pathological shapes that would raise `TypeError`/`AttributeError` in
Python (a truthy non-list `highlights`, a truthy non-dict `evidence`)
are errors here as well, with descriptive messages. -/
def validateDiscover (data : JVal) : Except String JVal :=
  if (match data with | JVal.obj _ => true | _ => false)
      && pyEqOne (pyGet data "schema_version")
      && pyEqStr (pyGet data "stage") "discover" then
    let d := if jTruthy data then data else JVal.obj []
    let ev := orEmptyObj (jGet d "evidence")
    match ev with
    | JVal.obj _ =>
      let hv := match jGet ev "highlights" with
        | some v => if jTruthy v then v else JVal.arr []
        | none => JVal.arr []
      match hv with
      | JVal.arr hs =>
        if hs.isEmpty then
          Except.error "discover: missing evidence.highlights (require 1–3)"
        else if hs.length > 3 then
          Except.ok (jSet data "evidence" (jSet ev "highlights" (JVal.arr (hs.take 3))))
        else Except.ok data
      | _ => Except.error "unsupported highlights shape"
    | _ => Except.error "evidence not a mapping"
  else Except.error "invalid discover result"

/-- The outcome of `self.codex.exec(...)` as `CodexAgent.run` sees it:
parsed JSON standard output (`none` when `json.loads` fails),
`CodexTimeout`, `CodexError` with exit code and stderr, or any other
exception. -/
inductive DispatchOutcome
  | ok (stdoutJson : Option JVal)
  | timeout
  | exit (returncode : Int) (stderr : String)
  | other (msg : String)

/-- The synthesized error observation dict of `CodexAgent.run`. -/
def errObs (summary notes : String) : JVal :=
  JVal.obj [("schema_version", JVal.num 1), ("stage", JVal.str "exec"),
    ("summary", JVal.str summary), ("citations", JVal.arr []),
    ("notes", JVal.str notes)]

/-- `CodexAgent.run` (`codex_agent.py` lines 122-173): parse the task
(outside the try-block, so parse errors propagate), dispatch, postprocess,
and normalize dispatcher/validation failures per stage. -/
def agentRun (root : List String) (task : String) (d : DispatchOutcome) :
    Except String JVal :=
  match parseTask root task with
  | Except.error e => Except.error e
  | Except.ok (ParsedTask.discover _) =>
    (match d with
     | DispatchOutcome.timeout =>
       Except.ok (JVal.obj [("error", JVal.str "timeout"),
         ("goal", JVal.str task)])
     | DispatchOutcome.exit code stderr =>
       Except.ok (JVal.obj [("error", JVal.str "codex-exit"),
         ("goal", JVal.str task), ("code", JVal.num code),
         ("stderr_head", JVal.str (strTake stderr 512))])
     | DispatchOutcome.ok none => Except.error "non-json output"
     | DispatchOutcome.ok (some j) => validateDiscover j
     | DispatchOutcome.other msg => Except.error msg)
  | Except.ok (ParsedTask.exec _ _) =>
    Except.ok
      (match d with
       | DispatchOutcome.ok none => errObs "error: non-json output" ""
       | DispatchOutcome.ok (some j) =>
         (match validateExec j with
          | Except.ok data => data
          | Except.error msg => errObs ("error: " ++ msg) "")
       | DispatchOutcome.timeout => errObs "error: timeout" ""
       | DispatchOutcome.exit code stderr =>
         errObs ("error: codex-exit " ++ toString code) (strTake stderr 512)
       | DispatchOutcome.other msg => errObs ("error: " ++ msg) "")


theorem strStarts_append (pre rest : String) : strStarts (pre ++ rest) pre = true := by
  unfold strStarts
  cases pre with
  | mk a =>
    cases rest with
    | mk b =>
      show a.isPrefixOf (a ++ b) = true
      rw [List.isPrefixOf_iff_prefix]
      exact List.prefix_append a b

theorem lookupV_map_set {β : Type} (k : String) (v : β) :
    ∀ (fields : List (String × β)) (w : β),
      lookupV fields k = some w →
      lookupV (fields.map (fun kv => if kv.1 = k then (k, v) else kv)) k = some v := by
  intro fields
  induction fields with
  | nil => intro w h; exact absurd h (by simp [lookupV])
  | cons a rest ih =>
    rcases a with ⟨ak, av⟩
    intro w h
    by_cases ha : ak = k
    · subst ha
      simp only [List.map_cons]
      unfold lookupV
      simp
    · simp only [List.map_cons, if_neg ha]
      unfold lookupV at h ⊢
      rw [if_neg ha] at h ⊢
      exact ih w h

theorem lookupV_append_set {β : Type} (k : String) (v : β) :
    ∀ (fields : List (String × β)),
      lookupV fields k = none →
      lookupV (fields ++ [(k, v)]) k = some v := by
  intro fields
  induction fields with
  | nil =>
    intro _
    show lookupV [(k, v)] k = some v
    unfold lookupV
    rw [if_pos rfl]
  | cons a rest ih =>
    rcases a with ⟨ak, av⟩
    intro h
    rw [List.cons_append]
    unfold lookupV at h ⊢
    by_cases ha : ak = k
    · rw [if_pos ha] at h
      exact absurd h (by simp)
    · rw [if_neg ha] at h ⊢
      exact ih h

theorem lookupV_setV_same {β : Type} (fields : List (String × β))
    (k : String) (v : β) :
    lookupV (setV fields k v) k = some v := by
  unfold setV
  by_cases h : (lookupV fields k).isSome
  · rw [if_pos h]
    rcases Option.isSome_iff_exists.mp h with ⟨w, hw⟩
    exact lookupV_map_set k v fields w hw
  · rw [if_neg h]
    rw [Option.not_isSome_iff_eq_none] at h
    exact lookupV_append_set k v fields h

theorem lookupV_map_set_ne {β : Type} (k kk : String) (v : β) (hne : kk ≠ k) :
    ∀ (fields : List (String × β)),
      lookupV (fields.map (fun kv => if kv.1 = k then (k, v) else kv)) kk =
        lookupV fields kk := by
  intro fields
  induction fields with
  | nil => rfl
  | cons a rest ih =>
    rcases a with ⟨ak, av⟩
    by_cases ha : ak = k
    · subst ha
      have hstep : (fun kv => if kv.1 = ak then (ak, v) else kv) (ak, av) = (ak, v) := by
        simp
      simp only [List.map_cons, hstep]
      unfold lookupV
      rw [if_neg (fun h => hne h.symm), if_neg (fun h => hne h.symm)]
      exact ih
    · simp only [List.map_cons, if_neg ha]
      unfold lookupV
      by_cases hk : ak = kk
      · rw [if_pos hk, if_pos hk]
      · rw [if_neg hk, if_neg hk]
        exact ih

theorem lookupV_append_ne {β : Type} (k kk : String) (v : β) (hne : kk ≠ k) :
    ∀ (fields : List (String × β)),
      lookupV (fields ++ [(k, v)]) kk = lookupV fields kk := by
  intro fields
  induction fields with
  | nil =>
    show lookupV [(k, v)] kk = none
    unfold lookupV
    rw [if_neg (fun h => hne h.symm)]
    rfl
  | cons a rest ih =>
    rcases a with ⟨ak, av⟩
    rw [List.cons_append]
    unfold lookupV
    by_cases hk : ak = kk
    · rw [if_pos hk, if_pos hk]
    · rw [if_neg hk, if_neg hk]
      exact ih

theorem lookupV_setV_ne {β : Type} (fields : List (String × β))
    (k kk : String) (v : β) (hne : kk ≠ k) :
    lookupV (setV fields k v) kk = lookupV fields kk := by
  unfold setV
  by_cases h : (lookupV fields k).isSome
  · rw [if_pos h]
    exact lookupV_map_set_ne k kk v hne fields
  · rw [if_neg h]
    exact lookupV_append_ne k kk v hne fields

theorem pyGet_jSet_same (fields : List (String × JVal)) (k s : String) :
    pyGet (jSet (JVal.obj fields) k (JVal.str s)) k = some (JVal.str s) := by
  unfold pyGet
  have h2 : jGet (jSet (JVal.obj fields) k (JVal.str s)) k =
      lookupV (setV fields k (JVal.str s)) k := rfl
  rw [h2, lookupV_setV_same]

theorem pyGet_jSet_ne (fields : List (String × JVal)) (k kk : String)
    (v : JVal) (hne : kk ≠ k) :
    pyGet (jSet (JVal.obj fields) k v) kk = pyGet (JVal.obj fields) kk := by
  unfold pyGet
  have h2 : jGet (jSet (JVal.obj fields) k v) kk =
      lookupV (setV fields k v) kk := rfl
  have h3 : jGet (JVal.obj fields) kk = lookupV fields kk := rfl
  rw [h2, h3, lookupV_setV_ne fields k kk v hne]

theorem pyIsStr_iff (o : Option JVal) :
    pyIsStr o = true ↔ ∃ s, o = some (JVal.str s) := by
  constructor
  · intro h
    match o, h with
    | some (JVal.str s), _ => exact ⟨s, rfl⟩
  · rintro ⟨s, rfl⟩
    rfl

theorem pyIsArr_iff (o : Option JVal) :
    pyIsArr o = true ↔ ∃ xs, o = some (JVal.arr xs) := by
  constructor
  · intro h
    match o, h with
    | some (JVal.arr xs), _ => exact ⟨xs, rfl⟩
  · rintro ⟨xs, rfl⟩
    rfl

/-- Any observation accepted by the exec validator has the exec schema,
and a non-error summary implies non-empty citations. -/
theorem validateExec_ok_props (jin j : JVal)
    (h : validateExec jin = Except.ok j) :
    pyEqOne (pyGet j "schema_version") = true ∧
    pyEqStr (pyGet j "stage") "exec" = true ∧
    (∃ s, pyGet j "summary" = some (JVal.str s)) ∧
    (∃ cs, pyGet j "citations" = some (JVal.arr cs)) ∧
    (∀ s, pyGet j "summary" = some (JVal.str s) →
      strStarts s "error:" = false →
      ∃ cs, pyGet j "citations" = some (JVal.arr cs) ∧ cs ≠ []) := by
  unfold validateExec at h
  split at h
  case isFalse => exact absurd h (by simp)
  case isTrue hcond =>
    rw [Bool.and_eq_true, Bool.and_eq_true, Bool.and_eq_true,
      Bool.and_eq_true] at hcond
    obtain ⟨⟨⟨⟨hobj, hsv⟩, hstage⟩, _⟩, _⟩ := hcond
    obtain ⟨fields, rfl⟩ : ∃ fields, jin = JVal.obj fields := by
      cases jin <;> simp at hobj
      exact ⟨_, rfl⟩
    split at h
    case h_2 hmatch => exact absurd h (by simp)
    case h_1 summary cits hs hc =>
      split at h
      case isFalse => exact absurd h (by simp)
      case isTrue hall =>
        split at h
        case isTrue hrw =>
          rw [Except.ok.injEq] at h
          subst h
          have hne1 : ("schema_version" : String) ≠ "summary" := by decide
          have hne2 : ("stage" : String) ≠ "summary" := by decide
          have hne3 : ("citations" : String) ≠ "summary" := by decide
          refine ⟨?_, ?_, ?_, ?_, ?_⟩
          · rw [pyGet_jSet_ne fields "summary" "schema_version" _ hne1]
            exact hsv
          · rw [pyGet_jSet_ne fields "summary" "stage" _ hne2]
            exact hstage
          · exact ⟨_, pyGet_jSet_same fields "summary" "error: missing-citation"⟩
          · rw [pyGet_jSet_ne fields "summary" "citations" _ hne3]
            exact ⟨cits, hc⟩
          · intro s hs' hfalse
            rw [pyGet_jSet_same fields "summary" "error: missing-citation"] at hs'
            rw [Option.some.injEq, JVal.str.injEq] at hs'
            rw [← hs'] at hfalse
            have : strStarts "error: missing-citation" "error:" = true := rfl
            rw [this] at hfalse
            exact absurd hfalse (by simp)
        case isFalse hrw =>
          rw [Except.ok.injEq] at h
          subst h
          refine ⟨hsv, hstage, ⟨summary, hs⟩, ⟨cits, hc⟩, ?_⟩
          intro s hs' hfalse
          rw [hs, Option.some.injEq, JVal.str.injEq] at hs'
          subst hs'
          rw [Bool.and_eq_true, Bool.not_eq_true'] at hrw
          push_neg at hrw
          rcases Decidable.em (strStarts summary "error:" = false) with hcase | hcase
          · have hcits : cits.isEmpty ≠ true := hrw hcase
            refine ⟨cits, hc, ?_⟩
            intro hnil
            rw [hnil] at hcits
            exact hcits rfl
          · exact absurd hfalse hcase

/-- A schema-valid reply with a non-error summary and empty citations is
rewritten in place to `summary="error: missing-citation"`. -/
theorem validateExec_missing_citation (jin j : JVal) (summary : String)
    (hval : validateExec jin = Except.ok j)
    (hsum : pyGet jin "summary" = some (JVal.str summary))
    (hfalse : strStarts summary "error:" = false)
    (hcit : pyGet jin "citations" = some (JVal.arr [])) :
    pyGet j "summary" = some (JVal.str "error: missing-citation") := by
  unfold validateExec at hval
  split at hval
  case isFalse => exact absurd hval (by simp)
  case isTrue hcond =>
    rw [Bool.and_eq_true, Bool.and_eq_true, Bool.and_eq_true,
      Bool.and_eq_true] at hcond
    obtain ⟨⟨⟨⟨hobj, _⟩, _⟩, _⟩, _⟩ := hcond
    obtain ⟨fields, rfl⟩ : ∃ fields, jin = JVal.obj fields := by
      cases jin <;> simp at hobj
      exact ⟨_, rfl⟩
    split at hval
    case h_2 hmatch => exact absurd hval (by simp)
    case h_1 summary' cits hs hc =>
      rw [hsum, Option.some.injEq, JVal.str.injEq] at hs
      subst hs
      rw [hcit, Option.some.injEq, JVal.arr.injEq] at hc
      subst hc
      split at hval
      case isFalse => exact absurd hval (by simp)
      case isTrue =>
        split at hval
        case isTrue =>
          rw [Except.ok.injEq] at hval
          subst hval
          exact pyGet_jSet_same fields "summary" "error: missing-citation"
        case isFalse hrw =>
          exfalso
          apply hrw
          rw [hfalse]
          rfl

/-- C10: for every `codex:exec:<path>::<goal>` task whose path resolves
inside the working directory, `CodexAgent.run` is total: it returns an
observation with `schema_version=1`, `stage="exec"`, a string summary and
a list of citations, and never propagates a dispatcher or validation
failure - timeouts, non-zero exits, non-JSON output and schema-invalid
replies each return the corresponding `error:` observation with empty
citations. -/
theorem C10_agent_total (root : List String) (task : String)
    (d : DispatchOutcome) (p g : String)
    (hp : parseTask root task = Except.ok (ParsedTask.exec p g)) :
    (∃ j, agentRun root task d = Except.ok j ∧
      pyEqOne (pyGet j "schema_version") = true ∧
      pyEqStr (pyGet j "stage") "exec" = true ∧
      (∃ s, pyGet j "summary" = some (JVal.str s)) ∧
      (∃ cs, pyGet j "citations" = some (JVal.arr cs))) ∧
    (d = DispatchOutcome.timeout →
      agentRun root task d = Except.ok (errObs "error: timeout" "")) ∧
    (∀ code stderr, d = DispatchOutcome.exit code stderr →
      agentRun root task d = Except.ok
        (errObs ("error: codex-exit " ++ toString code) (strTake stderr 512))) ∧
    (d = DispatchOutcome.ok none →
      agentRun root task d = Except.ok (errObs "error: non-json output" "")) ∧
    (∀ jin msg, d = DispatchOutcome.ok (some jin) →
      validateExec jin = Except.error msg →
      agentRun root task d = Except.ok (errObs ("error: " ++ msg) "")) := by
  refine ⟨?_, ?_, ?_, ?_, ?_⟩
  · cases d with
    | ok oj =>
      cases oj with
      | none =>
        refine ⟨errObs "error: non-json output" "", ?_, rfl, rfl, ⟨_, rfl⟩, ⟨[], rfl⟩⟩
        simp [agentRun, hp]
      | some jin =>
        cases hv : validateExec jin with
        | ok data =>
          obtain ⟨h1, h2, h3, h4, _⟩ := validateExec_ok_props jin data hv
          refine ⟨data, ?_, h1, h2, h3, h4⟩
          simp [agentRun, hp, hv]
        | error msg =>
          refine ⟨errObs ("error: " ++ msg) "", ?_, rfl, rfl, ⟨_, rfl⟩, ⟨[], rfl⟩⟩
          simp [agentRun, hp, hv]
    | timeout =>
      refine ⟨errObs "error: timeout" "", ?_, rfl, rfl, ⟨_, rfl⟩, ⟨[], rfl⟩⟩
      simp [agentRun, hp]
    | exit code stderr =>
      refine ⟨errObs ("error: codex-exit " ++ toString code) (strTake stderr 512),
        ?_, rfl, rfl, ⟨_, rfl⟩, ⟨[], rfl⟩⟩
      simp [agentRun, hp]
    | other msg =>
      refine ⟨errObs ("error: " ++ msg) "", ?_, rfl, rfl, ⟨_, rfl⟩, ⟨[], rfl⟩⟩
      simp [agentRun, hp]
  · intro hd
    subst hd
    simp [agentRun, hp]
  · intro code stderr hd
    subst hd
    simp [agentRun, hp]
  · intro hd
    subst hd
    simp [agentRun, hp]
  · intro jin msg hd hv
    subst hd
    simp [agentRun, hp, hv]

/-- Witness for C10 at a concrete input: a timed-out exec task still
yields a well-shaped observation. -/
theorem C10_agent_total_witness :
    ∃ j, agentRun ["repo"] "codex:exec:a.py::g" DispatchOutcome.timeout =
        Except.ok j ∧
      pyEqOne (pyGet j "schema_version") = true ∧
      pyEqStr (pyGet j "stage") "exec" = true ∧
      (∃ s, pyGet j "summary" = some (JVal.str s)) ∧
      (∃ cs, pyGet j "citations" = some (JVal.arr cs)) :=
  (C10_agent_total ["repo"] "codex:exec:a.py::g" DispatchOutcome.timeout
    "a.py" "g" rfl).1

/-- The summary field of a synthesized error observation. -/
theorem pyGet_errObs_summary (s notes : String) :
    pyGet (errObs s notes) "summary" = some (JVal.str s) := rfl

/-- `"error: codex-exit <code>"` begins with `"error:"`. -/
theorem strStarts_error_exit (code : Int) :
    strStarts ("error: codex-exit " ++ toString code) "error:" = true := by
  rw [show ("error: codex-exit " : String) = "error:" ++ " codex-exit " from rfl,
    String.append_assoc]
  exact strStarts_append "error:" (" codex-exit " ++ toString code)

/-- `"error: " ++ msg` begins with `"error:"`. -/
theorem strStarts_error_msg (msg : String) :
    strStarts ("error: " ++ msg) "error:" = true := by
  rw [show ("error: " : String) = "error:" ++ " " from rfl, String.append_assoc]
  exact strStarts_append "error:" (" " ++ msg)

/-- C4: every observation `CodexAgent.run` returns for an exec-stage task
has non-empty citations whenever its summary does not begin with
`error:`; a timeout yields `summary="error: timeout"` with empty
citations, a non-zero exit yields `summary="error: codex-exit <code>"`
with empty citations, and a schema-valid reply with a non-error summary
and empty citations is rewritten to `summary="error: missing-citation"`. -/
theorem C4_exec_error_citations (root : List String) (task : String)
    (d : DispatchOutcome) (p g : String)
    (hp : parseTask root task = Except.ok (ParsedTask.exec p g))
    (j : JVal) (hj : agentRun root task d = Except.ok j) :
    (∀ s, pyGet j "summary" = some (JVal.str s) →
      strStarts s "error:" = false →
      ∃ cs, pyGet j "citations" = some (JVal.arr cs) ∧ cs ≠ []) ∧
    (d = DispatchOutcome.timeout → j = errObs "error: timeout" "") ∧
    (∀ code stderr, d = DispatchOutcome.exit code stderr →
      j = errObs ("error: codex-exit " ++ toString code) (strTake stderr 512)) ∧
    (∀ jin summary, d = DispatchOutcome.ok (some jin) →
      validateExec jin = Except.ok j →
      pyGet jin "summary" = some (JVal.str summary) →
      strStarts summary "error:" = false →
      pyGet jin "citations" = some (JVal.arr []) →
      pyGet j "summary" = some (JVal.str "error: missing-citation")) := by
  refine ⟨?_, ?_, ?_, ?_⟩
  · intro s hs hfalse
    cases d with
    | ok oj =>
      cases oj with
      | none =>
        simp [agentRun, hp] at hj
        rw [← hj] at hs
        rw [pyGet_errObs_summary] at hs
        rw [Option.some.injEq, JVal.str.injEq] at hs
        rw [← hs] at hfalse
        have : strStarts "error: non-json output" "error:" = true := rfl
        rw [this] at hfalse
        exact absurd hfalse (by simp)
      | some jin =>
        cases hv : validateExec jin with
        | ok data =>
          simp [agentRun, hp, hv] at hj
          subst hj
          exact (validateExec_ok_props jin data hv).2.2.2.2 s hs hfalse
        | error msg =>
          simp [agentRun, hp, hv] at hj
          rw [← hj] at hs
          rw [pyGet_errObs_summary] at hs
          rw [Option.some.injEq, JVal.str.injEq] at hs
          rw [← hs] at hfalse
          rw [strStarts_error_msg msg] at hfalse
          exact absurd hfalse (by simp)
    | timeout =>
      simp [agentRun, hp] at hj
      rw [← hj] at hs
      rw [pyGet_errObs_summary] at hs
      rw [Option.some.injEq, JVal.str.injEq] at hs
      rw [← hs] at hfalse
      have : strStarts "error: timeout" "error:" = true := rfl
      rw [this] at hfalse
      exact absurd hfalse (by simp)
    | exit code stderr =>
      simp [agentRun, hp] at hj
      rw [← hj] at hs
      rw [pyGet_errObs_summary] at hs
      rw [Option.some.injEq, JVal.str.injEq] at hs
      rw [← hs] at hfalse
      rw [strStarts_error_exit code] at hfalse
      exact absurd hfalse (by simp)
    | other msg =>
      simp [agentRun, hp] at hj
      rw [← hj] at hs
      rw [pyGet_errObs_summary] at hs
      rw [Option.some.injEq, JVal.str.injEq] at hs
      rw [← hs] at hfalse
      rw [strStarts_error_msg msg] at hfalse
      exact absurd hfalse (by simp)
  · intro hd
    subst hd
    simp [agentRun, hp] at hj
    exact hj.symm
  · intro code stderr hd
    subst hd
    simp [agentRun, hp] at hj
    exact hj.symm
  · intro jin summary hd hval hsum hfalse hcit
    exact validateExec_missing_citation jin j summary hval hsum hfalse hcit

/-- Witness for C4 at a concrete input: a validated observation with
summary `"found"` has a non-empty citations list. -/
theorem C4_exec_error_citations_witness :
    ∃ cs,
      pyGet (JVal.obj [("schema_version", JVal.num 1),
        ("stage", JVal.str "exec"), ("summary", JVal.str "found"),
        ("citations", JVal.arr [JVal.obj [("path", JVal.str "a.py"),
          ("start_line", JVal.num 1), ("end_line", JVal.num 2)]]),
        ("notes", JVal.str "")]) "citations" = some (JVal.arr cs) ∧ cs ≠ [] :=
  (C4_exec_error_citations ["repo"] "codex:exec:a.py::g"
    (DispatchOutcome.ok (some (JVal.obj [("schema_version", JVal.num 1),
      ("stage", JVal.str "exec"), ("summary", JVal.str "found"),
      ("citations", JVal.arr [JVal.obj [("path", JVal.str "a.py"),
        ("start_line", JVal.num 1), ("end_line", JVal.num 2)]]),
      ("notes", JVal.str "")])))
    "a.py" "g" rfl
    (JVal.obj [("schema_version", JVal.num 1),
      ("stage", JVal.str "exec"), ("summary", JVal.str "found"),
      ("citations", JVal.arr [JVal.obj [("path", JVal.str "a.py"),
        ("start_line", JVal.num 1), ("end_line", JVal.num 2)]]),
      ("notes", JVal.str "")]) rfl).1 "found" rfl rfl

/-! ## Manifest validation and the run driver (`util/manifest.py`,
`run_pipeline.py`)

`validate_manifest` canonicalizes every non-blank manifest line through
`repo_rel` (`util/paths.repo_rel` performs the same resolve-and-check as
`CodexAgent._repo_rel`, modelled by `repoRel`), requires the file to
exist, rejects duplicates, and returns the relative paths sorted
lexicographically.  `run_pipeline.main` creates the run directory (line
96) before validation (line 125) and removes it in the error handler. -/

/-- Codepoint-wise `<` on character lists (Python string comparison). -/
def charListLt : List Char → List Char → Bool
  | [], [] => false
  | [], _ :: _ => true
  | _ :: _, [] => false
  | c :: cs, d :: ds =>
    if c < d then true else if d < c then false else charListLt cs ds

/-- Python `a < b` on strings. -/
def strLtB (a b : String) : Bool := charListLt a.data b.data

/-- Stable insertion for `sortStrings`. -/
def insertStr (x : String) : List String → List String
  | [] => [x]
  | y :: ys => if strLtB x y then x :: y :: ys else y :: insertStr x ys

/-- Python `sorted(paths, key=lambda p: p.as_posix())`. -/
def sortStrings (l : List String) : List String :=
  l.foldl (fun acc x => insertStr x acc) []

/-- The failure cases of `validate_manifest`: `ValueError` from
`repo_rel`, `FileNotFoundError`, `ValueError` for duplicates. -/
inductive ManifestError
  | pathEscape (entry : String)
  | missing (entry : String)
  | duplicate (entry : String)
deriving DecidableEq, Repr

/-- The validation loop of `validate_manifest` (`util/manifest.py` lines
13-26): strip each line, skip blanks, canonicalize through `repo_rel`,
require existence (`existsF` is the filesystem, on resolved absolute
component lists), reject duplicates. -/
def validateManifestAux (root : List String) (existsF : List String → Bool) :
    List String → List String → Except ManifestError (List String)
  | [], _ => Except.ok []
  | line :: rest, seen =>
    let entry := pyStrip line
    if entry = "" then validateManifestAux root existsF rest seen
    else
      match repoRel root entry with
      | none => Except.error (ManifestError.pathEscape entry)
      | some rel =>
        if existsF (resolvePath root entry) = false then
          Except.error (ManifestError.missing entry)
        else if rel ∈ seen then
          Except.error (ManifestError.duplicate entry)
        else
          match validateManifestAux root existsF rest (rel :: seen) with
          | Except.ok tail => Except.ok (rel :: tail)
          | Except.error e => Except.error e

/-- `validate_manifest`: the loop above followed by
`sorted(paths, key=lambda p: p.as_posix())` (line 27). -/
def validateManifest (root : List String) (existsF : List String → Bool)
    (lines : List String) : Except ManifestError (List String) :=
  match validateManifestAux root existsF lines [] with
  | Except.ok paths => Except.ok (sortStrings paths)
  | Except.error e => Except.error e

/-- What `run_pipeline.main` did by the time it returns: whether
`SystemExit(1)` was raised, whether the run directory exists afterwards,
and whether it existed while `validate_manifest` ran. -/
structure DriverResult where
  exitOne : Bool
  runDirFinal : Bool
  runDirAtValidation : Bool
  manifest : Option (List String)
deriving DecidableEq, Repr

/-- The manifest segment of `run_pipeline.main` (lines 96-156):
`run_path.mkdir` happens first, then validation; the `except` handler
logs, removes the run directory with `shutil.rmtree`, and raises
`SystemExit(1)`. -/
def runDriver (root : List String) (existsF : List String → Bool)
    (lines : List String) : DriverResult :=
  match validateManifest root existsF lines with
  | Except.ok fs =>
    { exitOne := false, runDirFinal := true,
      runDirAtValidation := true, manifest := some fs }
  | Except.error _ =>
    { exitOne := true, runDirFinal := false,
      runDirAtValidation := true, manifest := none }

/-- C5 counterexample: a manifest line that is an absolute path inside
the repository, or a `..` traversal resolving inside it, validates
successfully (no exit 1); and for a genuinely failing manifest (missing
file) the run directory already exists while validation runs, so the
driver does not fail "before any run directory is created". -/
theorem C5_counterexample :
    (runDriver ["r"] (fun _ => true) ["/r/a.py"]).exitOne = false ∧
    (runDriver ["r"] (fun _ => true) ["b/../a.py"]).exitOne = false ∧
    (runDriver ["r"] (fun _ => false) ["a.py"]).exitOne = true ∧
    (runDriver ["r"] (fun _ => false) ["a.py"]).runDirAtValidation = true :=
  ⟨rfl, rfl, rfl, rfl⟩

theorem validateManifestAux_error (root : List String)
    (existsF : List String → Bool) :
    ∀ (lines seen : List String),
      (∃ l ∈ lines, pyStrip l ≠ "" ∧
        (repoRel root (pyStrip l) = none ∨
          existsF (resolvePath root (pyStrip l)) = false)) →
      ∃ e, validateManifestAux root existsF lines seen = Except.error e := by
  intro lines
  induction lines with
  | nil =>
    rintro seen ⟨l, hl, _⟩
    exact absurd hl (List.not_mem_nil l)
  | cons line rest ih =>
    rintro seen ⟨l, hl, hbad⟩
    unfold validateManifestAux
    by_cases hstrip : pyStrip line = ""
    · rw [if_pos hstrip]
      rcases List.mem_cons.mp hl with hl | hl
      · subst hl
        exact absurd hstrip hbad.1
      · exact ih seen ⟨l, hl, hbad⟩
    · rw [if_neg hstrip]
      rcases hrel : repoRel root (pyStrip line) with _ | rel
      · simp only [hrel]
        exact ⟨_, rfl⟩
      · simp only [hrel]
        by_cases hex : existsF (resolvePath root (pyStrip line)) = false
        · rw [if_pos hex]
          exact ⟨_, rfl⟩
        · rw [if_neg hex]
          by_cases hdup : rel ∈ seen
          · rw [if_pos hdup]
            exact ⟨_, rfl⟩
          · rw [if_neg hdup]
            have hrest : ∃ l ∈ rest, pyStrip l ≠ "" ∧
                (repoRel root (pyStrip l) = none ∨
                  existsF (resolvePath root (pyStrip l)) = false) := by
              rcases List.mem_cons.mp hl with hl | hl
              · subst hl
                rcases hbad.2 with hb | hb
                · rw [hrel] at hb
                  exact absurd hb (by simp)
                · exact absurd hb hex
              · exact ⟨l, hl, hbad⟩
            rcases ih (rel :: seen) hrest with ⟨e, he⟩
            rw [he]
            exact ⟨e, rfl⟩

/-- C5 amended: a manifest line resolving outside the repository root or
naming a non-existent file makes validation fail, and any validation
failure (duplicates included) makes the driver raise `SystemExit(1)` with
no run directory left on disk — but the run directory is created before
validation and only removed in the error handler, and absolute or `..`
lines that resolve inside the repository are accepted. -/
theorem C5_manifest_failure (root : List String)
    (existsF : List String → Bool) (lines : List String) :
    ((∃ l ∈ lines, pyStrip l ≠ "" ∧
        (repoRel root (pyStrip l) = none ∨
          existsF (resolvePath root (pyStrip l)) = false)) →
      ∃ e, validateManifest root existsF lines = Except.error e) ∧
    (∀ e, validateManifest root existsF lines = Except.error e →
      (runDriver root existsF lines).exitOne = true ∧
      (runDriver root existsF lines).runDirFinal = false ∧
      (runDriver root existsF lines).runDirAtValidation = true) ∧
    (∀ fs, validateManifest root existsF lines = Except.ok fs →
      (runDriver root existsF lines).exitOne = false) := by
  refine ⟨?_, ?_, ?_⟩
  · intro hbad
    rcases validateManifestAux_error root existsF lines [] hbad with ⟨e, he⟩
    unfold validateManifest
    rw [he]
    exact ⟨e, rfl⟩
  · intro e he
    unfold runDriver
    rw [he]
    exact ⟨rfl, rfl, rfl⟩
  · intro fs hfs
    unfold runDriver
    rw [hfs]

/-- Witness for the amended C5 at a concrete input: a manifest naming a
missing file fails validation. -/
theorem C5_manifest_failure_witness :
    ∃ e, validateManifest ["r"] (fun _ => false) ["a.py"] =
      Except.error e :=
  (C5_manifest_failure ["r"] (fun _ => false) ["a.py"]).1
    ⟨"a.py", List.mem_cons_self "a.py" [], by decide, Or.inr rfl⟩

/-! ## Seed list assembly (`run_pipeline.py`, `main`, lines 124-147)

After validation, the driver records every manifest path as source
`manual`; with hotspots enabled it appends the hotspot paths
(`setdefault` keeps an existing source), deduplicates, and stably sorts
the WHOLE list by descending hotspot score (absent scores count 0); when
the VCS diff is non-empty it overwrites each changed path's source with
`diff` and places the changed paths first, deduplicating again. -/

/-- Python `d.setdefault(k, v)`. -/
def setdefaultV {β : Type} (d : List (String × β)) (k : String) (v : β) :
    List (String × β) :=
  if (lookupV d k).isSome then d else d ++ [(k, v)]

theorem lookupV_setdefaultV_of_some {β : Type} (d : List (String × β))
    (k kk : String) (v w : β) (h : lookupV d kk = some w) :
    lookupV (setdefaultV d k v) kk = some w := by
  unfold setdefaultV
  by_cases hs : (lookupV d k).isSome
  · rw [if_pos hs]
    exact h
  · rw [if_neg hs]
    rw [Option.not_isSome_iff_eq_none] at hs
    induction d with
    | nil => simp [lookupV] at h
    | cons a rest ih =>
      rcases a with ⟨ak, av⟩
      rw [List.cons_append]
      unfold lookupV at h hs ⊢
      by_cases hk : ak = kk
      · rw [if_pos hk] at h ⊢
        exact h
      · rw [if_neg hk] at h ⊢
        by_cases hak : ak = k
        · rw [if_pos hak] at hs
          exact absurd hs (by simp)
        · rw [if_neg hak] at hs
          exact ih h hs

/-- `hotspot_scores.get(p.as_posix(), 0)`. -/
def lookupScore (m : List (String × Int)) (p : String) : Int :=
  match lookupV m p with
  | some v => v
  | none => 0

/-- Python `list(dict.fromkeys(l))`: collapse duplicates to their first
occurrence. -/
def dedupKeepFirst : List String → List String → List String
  | [], _ => []
  | x :: xs, seen =>
    if x ∈ seen then dedupKeepFirst xs seen
    else x :: dedupKeepFirst xs (x :: seen)

/-- The final seed list and the `seed_sources` dictionary. -/
structure SeedResult where
  files : List String
  sources : List (String × String)
deriving DecidableEq, Repr

/-- The `hotspot_scores` dictionary (lines 133-136). -/
def seedScores (hotInfo : List (String × Int)) : List (String × Int) :=
  hotInfo.foldl (fun m pr => setV m pr.1 pr.2) []

/-- The file list after the hotspot block (lines 138-141): dedup of
manifest plus hotspot paths, stably sorted by descending score. -/
def seedMid (validated : List String) (hotspotsEnabled : Bool)
    (hotInfo : List (String × Int)) : List String :=
  if hotspotsEnabled then
    sortDescBy (lookupScore (seedScores hotInfo))
      (dedupKeepFirst (validated ++ hotInfo.map Prod.fst) [])
  else validated

/-- The `seed_sources` dictionary of `run_pipeline.main`: `manual` for
every manifest path, `setdefault("hotspot")` for hotspot paths, then
`"diff"` overwriting each changed path when the diff is non-empty.
Hotspot and diff paths are taken repo-relative (the code applies
`paths.repo_rel` to each). -/
def seedSources (validated : List String) (hotspotsEnabled : Bool)
    (hotInfo : List (String × Int)) (changed : List String) :
    List (String × String) :=
  let sources0 := validated.foldl (fun m p => setV m p "manual") []
  let sources1 :=
    if hotspotsEnabled then
      hotInfo.foldl (fun m pr => setdefaultV m pr.1 "hotspot") sources0
    else sources0
  if changed ≠ [] then changed.foldl (fun m p => setV m p "diff") sources1
  else sources1

/-- The final `manifest_files` seed list of `run_pipeline.main`: the
hotspot-sorted list, with diffed files deduplicated to the front when the
diff is non-empty. -/
def seedFiles (validated : List String) (hotspotsEnabled : Bool)
    (hotInfo : List (String × Int)) (changed : List String) : List String :=
  if changed ≠ [] then
    dedupKeepFirst (changed ++ seedMid validated hotspotsEnabled hotInfo) []
  else seedMid validated hotspotsEnabled hotInfo

/-- The seed-assembly of `run_pipeline.main` (lines 126-147), over the
already-validated manifest list. -/
def seedOrder (validated : List String) (hotspotsEnabled : Bool)
    (hotInfo : List (String × Int)) (changed : List String) : SeedResult :=
  { files := seedFiles validated hotspotsEnabled hotInfo changed
    sources := seedSources validated hotspotsEnabled hotInfo changed }

/-- C9 counterexample: `validate_manifest` sorts lexicographically, so
manifest order `["b.py", "a.py"]` is not preserved; with hotspots the
whole list is re-sorted by score, interleaving hotspot files with (and
ahead of) manifest entries; and a path in the VCS diff has its source
overwritten to `diff` even though its first occurrence was `manual`. -/
theorem C9_counterexample :
    (match validateManifest ["r"] (fun _ => true) ["b.py", "a.py"] with
      | Except.ok fs => (seedOrder fs true [] []).files
      | Except.error _ => []) = ["a.py", "b.py"] ∧
    (seedOrder ["a.py", "b.py"] true [("b.py", 5), ("c.py", 3)] []).files =
      ["b.py", "c.py", "a.py"] ∧
    (seedOrder ["a.py"] true [] ["a.py"]).sources = [("a.py", "diff")] :=
  ⟨rfl, rfl, rfl⟩

theorem mem_dedupKeepFirst :
    ∀ (l seen : List String) (x : String),
      x ∈ dedupKeepFirst l seen ↔ x ∈ l ∧ x ∉ seen := by
  intro l
  induction l with
  | nil => intro seen x; simp [dedupKeepFirst]
  | cons a rest ih =>
    intro seen x
    unfold dedupKeepFirst
    by_cases ha : a ∈ seen
    · rw [if_pos ha, ih]
      constructor
      · rintro ⟨hx, hns⟩
        exact ⟨List.mem_cons_of_mem a hx, hns⟩
      · rintro ⟨hx, hns⟩
        rcases List.mem_cons.mp hx with hx | hx
        · subst hx
          exact absurd ha hns
        · exact ⟨hx, hns⟩
    · rw [if_neg ha]
      constructor
      · intro hx
        rcases List.mem_cons.mp hx with hx | hx
        · subst hx
          exact ⟨List.mem_cons_self x rest, ha⟩
        · rw [ih] at hx
          refine ⟨List.mem_cons_of_mem a hx.1, ?_⟩
          intro hs
          exact hx.2 (List.mem_cons_of_mem a hs)
      · rintro ⟨hx, hns⟩
        rcases List.mem_cons.mp hx with hx | hx
        · subst hx
          exact List.mem_cons_self x _
        · by_cases hxa : x = a
          · subst hxa
            exact List.mem_cons_self x _
          · refine List.mem_cons_of_mem a ?_
            rw [ih]
            refine ⟨hx, ?_⟩
            intro hs
            rcases List.mem_cons.mp hs with hs | hs
            · exact hxa hs
            · exact hns hs

theorem nodup_dedupKeepFirst :
    ∀ (l seen : List String), (dedupKeepFirst l seen).Nodup := by
  intro l
  induction l with
  | nil => intro seen; simp [dedupKeepFirst]
  | cons a rest ih =>
    intro seen
    unfold dedupKeepFirst
    by_cases ha : a ∈ seen
    · rw [if_pos ha]
      exact ih seen
    · rw [if_neg ha]
      rw [List.nodup_cons]
      refine ⟨?_, ih (a :: seen)⟩
      intro hmem
      rw [mem_dedupKeepFirst] at hmem
      exact hmem.2 (List.mem_cons_self a seen)

theorem lookupV_fold_set_mem {β : Type} (v : β) :
    ∀ (l : List String) (m : List (String × β)) (p : String), p ∈ l →
      lookupV (l.foldl (fun m q => setV m q v) m) p = some v := by
  intro l
  induction l with
  | nil =>
    intro m p hp
    exact absurd hp (List.not_mem_nil p)
  | cons q rest ih =>
    intro m p hp
    rw [List.foldl_cons]
    by_cases hmem : p ∈ rest
    · exact ih (setV m q v) p hmem
    · have hpq : p = q := by
        rcases List.mem_cons.mp hp with h | h
        · exact h
        · exact absurd h hmem
      subst hpq
      have hnot : ∀ (m' : List (String × β)),
          lookupV m' p = some v →
          lookupV (rest.foldl (fun m q => setV m q v) m') p = some v := by
        clear ih hp
        induction rest with
        | nil => intro m' h; exact h
        | cons r rs ihr =>
          intro m' h
          rw [List.foldl_cons]
          have hpr : p ≠ r := fun hc => hmem (hc ▸ List.mem_cons_self r rs)
          have : lookupV (setV m' r v) p = some v := by
            rw [lookupV_setV_ne m' r p v hpr]
            exact h
          exact ihr (fun hc => hmem (List.mem_cons_of_mem r hc)) (setV m' r v) this
      exact hnot (setV m p v) (lookupV_setV_same m p v)

theorem lookupV_fold_set_not_mem {β : Type} (v : β) :
    ∀ (l : List String) (m : List (String × β)) (p : String), p ∉ l →
      lookupV (l.foldl (fun m q => setV m q v) m) p = lookupV m p := by
  intro l
  induction l with
  | nil => intro m p _; rfl
  | cons q rest ih =>
    intro m p hp
    rw [List.foldl_cons]
    have hpq : p ≠ q := fun hc => hp (hc ▸ List.mem_cons_self q rest)
    rw [ih (setV m q v) p (fun hc => hp (List.mem_cons_of_mem q hc))]
    exact lookupV_setV_ne m q p v hpq

theorem lookupV_fold_setdefault_of_some {β : Type} (v : β) :
    ∀ (hi : List (String × Int)) (m : List (String × β)) (p : String) (w : β),
      lookupV m p = some w →
      lookupV (hi.foldl (fun m pr => setdefaultV m pr.1 v) m) p = some w := by
  intro hi
  induction hi with
  | nil => intro m p w h; exact h
  | cons pr rest ih =>
    intro m p w h
    rw [List.foldl_cons]
    exact ih (setdefaultV m pr.1 v) p w
      (lookupV_setdefaultV_of_some m pr.1 p v w h)

theorem lookupV_setdefaultV_ne {β : Type} (d : List (String × β))
    (k kk : String) (v : β) (hne : kk ≠ k) :
    lookupV (setdefaultV d k v) kk = lookupV d kk := by
  unfold setdefaultV
  by_cases hs : (lookupV d k).isSome
  · rw [if_pos hs]
  · rw [if_neg hs]
    exact lookupV_append_ne k kk v hne d

theorem lookupV_fold_setdefault_mem {β : Type} (v : β) :
    ∀ (hi : List (String × Int)) (m : List (String × β)) (p : String),
      p ∈ hi.map Prod.fst → lookupV m p = none →
      lookupV (hi.foldl (fun m pr => setdefaultV m pr.1 v) m) p = some v := by
  intro hi
  induction hi with
  | nil =>
    intro m p hp _
    exact absurd hp (by simp)
  | cons pr rest ih =>
    intro m p hp hnone
    rw [List.foldl_cons]
    by_cases hk : pr.1 = p
    · have hnone' : lookupV m pr.1 = none := by
        rw [hk]
        exact hnone
      have hstep : setdefaultV m pr.1 v = m ++ [(pr.1, v)] := by
        unfold setdefaultV
        rw [hnone']
        simp
      rw [hstep, hk]
      have hsome := lookupV_append_set pr.1 v m hnone'
      rw [hk] at hsome
      exact lookupV_fold_setdefault_of_some v rest _ p v hsome
    · have hp' : p ∈ rest.map Prod.fst := by
        rcases List.mem_map.mp hp with ⟨q, hq, hq1⟩
        rcases List.mem_cons.mp hq with hq | hq
        · subst hq
          exact absurd hq1 hk
        · exact List.mem_map.mpr ⟨q, hq, hq1⟩
      have hnone2 : lookupV (setdefaultV m pr.1 v) p = none := by
        rw [lookupV_setdefaultV_ne m pr.1 p v (fun h => hk h.symm)]
        exact hnone
      exact ih (setdefaultV m pr.1 v) p hp' hnone2

/-- C9 amended: with hotspots enabled (the default), the validated
manifest list (itself lexicographically sorted by `validate_manifest`)
plus the hotspot paths is deduplicated to first occurrences and the WHOLE
list is stably sorted by descending hotspot score (absent scores count
0), so manifest entries are not kept in manifest order once any involved
file has a positive score; files from the VCS diff are then placed first
(deduplicated, final list without duplicates); each changed path's source
is overwritten to `diff`, a manifest path outside the diff keeps source
`manual` from its first occurrence, and a hotspot-only path outside the
diff gets source `hotspot` via `setdefault`. -/
theorem C9_seed_order (validated : List String)
    (hotInfo : List (String × Int)) (changed : List String) :
    ((seedOrder validated true hotInfo changed).files =
      if changed ≠ [] then
        dedupKeepFirst (changed ++ seedMid validated true hotInfo) []
      else seedMid validated true hotInfo) ∧
    List.Pairwise
      (fun a b => lookupScore (seedScores hotInfo) b ≤
        lookupScore (seedScores hotInfo) a)
      (seedMid validated true hotInfo) ∧
    (∀ s : Int, (seedMid validated true hotInfo).filter
        (fun p => lookupScore (seedScores hotInfo) p == s) =
      (dedupKeepFirst (validated ++ hotInfo.map Prod.fst) []).filter
        (fun p => lookupScore (seedScores hotInfo) p == s)) ∧
    (seedMid validated true hotInfo).Perm
      (dedupKeepFirst (validated ++ hotInfo.map Prod.fst) []) ∧
    (seedOrder validated true hotInfo changed).files.Nodup ∧
    (∀ p ∈ changed,
      lookupV (seedOrder validated true hotInfo changed).sources p =
        some "diff") ∧
    (∀ p, p ∈ validated → p ∉ changed →
      lookupV (seedOrder validated true hotInfo changed).sources p =
        some "manual") ∧
    (∀ p, p ∈ hotInfo.map Prod.fst → p ∉ validated → p ∉ changed →
      lookupV (seedOrder validated true hotInfo changed).sources p =
        some "hotspot") := by
  obtain ⟨hpair, hfilter, hperm⟩ :=
    sortDescBy_props (lookupScore (seedScores hotInfo))
      (dedupKeepFirst (validated ++ hotInfo.map Prod.fst) [])
  have hmid : seedMid validated true hotInfo =
      sortDescBy (lookupScore (seedScores hotInfo))
        (dedupKeepFirst (validated ++ hotInfo.map Prod.fst) []) := by
    unfold seedMid
    rw [if_pos rfl]
  refine ⟨?_, ?_, ?_, ?_, ?_, ?_, ?_, ?_⟩
  · show seedFiles validated true hotInfo changed = _
    unfold seedFiles
    rfl
  · rw [hmid]
    exact hpair
  · intro s
    rw [hmid]
    exact hfilter s
  · rw [hmid]
    exact hperm
  · show (seedFiles validated true hotInfo changed).Nodup
    unfold seedFiles
    by_cases hch : changed ≠ []
    · rw [if_pos hch]
      exact nodup_dedupKeepFirst _ []
    · rw [if_neg hch]
      rw [hmid]
      exact hperm.nodup_iff.mpr (nodup_dedupKeepFirst _ [])
  · intro p hp
    have hch : changed ≠ [] := by
      intro hc
      rw [hc] at hp
      exact absurd hp (List.not_mem_nil p)
    show lookupV (seedSources validated true hotInfo changed) p = _
    unfold seedSources
    rw [if_pos hch]
    exact lookupV_fold_set_mem "diff" changed _ p hp
  · intro p hpv hpc
    have hman : lookupV (validated.foldl (fun m q => setV m q "manual") []) p =
        some "manual" :=
      lookupV_fold_set_mem "manual" validated [] p hpv
    have hsrc1 : lookupV
        (hotInfo.foldl (fun m pr => setdefaultV m pr.1 "hotspot")
          (validated.foldl (fun m q => setV m q "manual") [])) p =
        some "manual" :=
      lookupV_fold_setdefault_of_some "hotspot" hotInfo _ p "manual" hman
    show lookupV (seedSources validated true hotInfo changed) p = _
    unfold seedSources
    by_cases hch : changed ≠ []
    · rw [if_pos hch]
      rw [lookupV_fold_set_not_mem "diff" changed _ p hpc]
      simpa using hsrc1
    · rw [if_neg hch]
      simpa using hsrc1
  · intro p hph hpv hpc
    have hnone0 : lookupV (validated.foldl (fun m q => setV m q "manual") []) p =
        none := by
      rw [lookupV_fold_set_not_mem "manual" validated [] p hpv]
      rfl
    have hhot : lookupV
        (hotInfo.foldl (fun m pr => setdefaultV m pr.1 "hotspot")
          (validated.foldl (fun m q => setV m q "manual") [])) p =
        some "hotspot" :=
      lookupV_fold_setdefault_mem "hotspot" hotInfo _ p hph hnone0
    show lookupV (seedSources validated true hotInfo changed) p = _
    unfold seedSources
    by_cases hch : changed ≠ []
    · rw [if_pos hch]
      rw [lookupV_fold_set_not_mem "diff" changed _ p hpc]
      simpa using hhot
    · rw [if_neg hch]
      simpa using hhot

/-- Witness for the amended C9 at a concrete input: a diffed path's
source is `diff`, and a hotspot-only path outside the diff gets source
`hotspot`. -/
theorem C9_seed_order_witness :
    lookupV (seedOrder ["a.py"] true [("h.py", 5)] ["c.py"]).sources "c.py" =
      some "diff" ∧
    lookupV (seedOrder ["a.py"] true [("h.py", 5)] ["c.py"]).sources "h.py" =
      some "hotspot" :=
  ⟨(C9_seed_order ["a.py"] [("h.py", 5)] ["c.py"]).2.2.2.2.2.1 "c.py"
      (List.mem_cons_self "c.py" []),
    (C9_seed_order ["a.py"] [("h.py", 5)] ["c.py"]).2.2.2.2.2.2.2 "h.py"
      (by decide) (by decide) (by decide)⟩

end Spec2Proof
